import Mathlib

/-!
# Atomic Fast Locks (`afl.h`): a shallow embedding

Every function of `afl.h` is embedded as a small-step machine: one step is one
atomic operation (or one system call) of the C function together with the
thread-local tests that follow it.  A step reads and writes the primitive's
memory and records what it did as a list of events.  The same step functions
are used

* sequentially (`exec`: one caller, nobody else touches the memory),
* under interference (`exec_env`: one caller, the memory changes arbitrarily
  between its steps), and
* concurrently (`run`: an arbitrary schedule interleaves the steps of many
  threads on one shared memory, every atomic operation being one indivisible
  step).

State words are `uint32_t` values, represented as natural numbers; the only
arithmetic on them is `&` and `|`, which cannot overflow.  `FUTEX_WAIT`
suspends the caller when the word equals the expected value; a suspended
thread may resume at any time (wake-up or spurious return).  Line numbers
refer to `afl.h`; the debug macros expand to nothing (`AFL_DEBUG` undefined).
-/

namespace AFL

/-! ## Constants -/

/-- `AFL_UNLOCKED = 0` of `enum __afl_state`. -/
def AFL_UNLOCKED : Nat := 0

/-- `AFL_LOCKED = 1` of `enum __afl_state`. -/
def AFL_LOCKED : Nat := 1

/-- `#define AFL_TID_MASK 0x3FFFFFFF`. -/
def AFL_TID_MASK : Nat := 0x3FFFFFFF

/-- `#define AFL_HAVE_WAITERS 0x80000000`. -/
def AFL_HAVE_WAITERS : Nat := 0x80000000

/-- `#define AFL_SUCCESS 0x40000000`. -/
def AFL_SUCCESS : Nat := 0x40000000

/-- Modelled from the spec: `errno.h` is not part of the repository; the
"not-owner" status, with its Linux value. -/
def EPERM : Nat := 1

/-- Modelled from the spec: `errno.h` is not part of the repository; the
"too-many-reentries" status, with its Linux value. -/
def EAGAIN : Nat := 11

/-- Modelled from the spec: `errno.h` is not part of the repository; the
"already-owned" status, with its Linux value (`EDEADLOCK = EDEADLK`). -/
def EDEADLOCK : Nat := 35

/-- `INT32_MAX` of `stdint.h`. -/
def INT32_MAX : Nat := 2 ^ 31 - 1

/-! ## Events and the step interface -/

/-- The memory orders used by `afl.h`. -/
inductive MemOrder where
  | relaxed
  | acquire
  | release
  deriving DecidableEq, Repr

/-- What one step of a function does to the outside world. -/
inductive Ev where
  /-- `__atomic_load`, with the value it observed. -/
  | load (o : MemOrder) (observed : Nat)
  /-- `__atomic_store_n`. -/
  | store (o : MemOrder) (v : Nat)
  /-- `__atomic_compare_exchange_n`; it succeeded iff `observed = expected`. -/
  | cas (ok fail : MemOrder) (expected desired observed : Nat)
  /-- `__atomic_exchange_n`, with the value it replaced. -/
  | xchg (o : MemOrder) (desired observed : Nat)
  /-- `__atomic_or_fetch`, with the value it found. -/
  | or_fetch (o : MemOrder) (bits observed : Nat)
  /-- Plain store to `mutex->count`. -/
  | count_write (v : Nat)
  /-- `__afl_pause`. -/
  | pause
  /-- `FUTEX_WAIT | FUTEX_PRIVATE_FLAG` with the expected value. -/
  | futex_wait (expected : Nat)
  /-- `FUTEX_WAKE | FUTEX_PRIVATE_FLAG` with the number of threads to wake. -/
  | futex_wake (n : Nat)
  /-- `FUTEX_LOCK_PI | FUTEX_PRIVATE_FLAG`. -/
  | futex_lock_pi
  /-- `FUTEX_UNLOCK_PI | FUTEX_PRIVATE_FLAG`. -/
  | futex_unlock_pi
  /-- `__NR_gettid`. -/
  | gettid
  /-- The call `init()` inside `afl_once`. -/
  | init_call
  /-- The return of `init()` inside `afl_once`. -/
  | init_return
  deriving DecidableEq, Repr

/-- Is the event a system call (`__afl_syscall`)? -/
def Ev.isSyscall : Ev → Bool
  | .futex_wait _ => true
  | .futex_wake _ => true
  | .futex_lock_pi => true
  | .futex_unlock_pi => true
  | .gettid => true
  | _ => false

/-- Is the event a futex system call? -/
def Ev.isFutex : Ev → Bool
  | .futex_wait _ => true
  | .futex_wake _ => true
  | .futex_lock_pi => true
  | .futex_unlock_pi => true
  | _ => false

/-- Does the event write the state word from user space? -/
def Ev.isWrite : Ev → Bool
  | .store _ _ => true
  | .cas _ _ expected _ observed => observed == expected
  | .xchg _ _ _ => true
  | .or_fetch _ _ _ => true
  | _ => false

/-- Where a step leaves the control of the function. -/
inductive Ctl (L : Type) where
  /-- Continue at the program point `l`. -/
  | goto (l : L)
  /-- The function returns `v`. -/
  | ret (v : Nat)
  deriving DecidableEq, Repr

/-- Result of one step: control, the memory after it, the events of the step. -/
structure Out (L S : Type) where
  ctl : Ctl L
  mem : S
  ev : List Ev

/-- Result of a whole call: return value, the memory after it, all events. -/
structure Res (S : Type) where
  ret : Nat
  mem : S
  log : List Ev
  deriving DecidableEq, Repr

/-- Run a function alone (no other thread touches the memory) from program
point `l`, for at most `fuel` steps. -/
def exec {L S : Type} (step : L → S → Out L S) : Nat → L → S → Option (Res S)
  | 0, _, _ => none
  | fuel + 1, l, m =>
    match (step l m).ctl with
    | .ret v => some ⟨v, (step l m).mem, (step l m).ev⟩
    | .goto l' =>
      match exec step fuel l' (step l m).mem with
      | some r => some ⟨r.ret, r.mem, (step l m).ev ++ r.log⟩
      | none => none

/-- Shared memory `mem`, the threads `th` and the events so far. -/
structure Sys (τ T M : Type) where
  mem : M
  th : τ → T
  log : List (τ × Ev)

/-- Run a schedule: the list of the actions taken, in order. -/
def run {σ A : Type} (step : σ → A → σ) (s : σ) (sched : List A) : σ :=
  sched.foldl step s

/-! ## Atomic operations on a 32-bit word -/

/-- `__atomic_compare_exchange_n(ptr, &expected, desired, ...)`: returns
success, the new `*ptr` and the new `expected`. -/
def atomic_compare_exchange (mem expected desired : Nat) : Bool × Nat × Nat :=
  if mem = expected then (true, desired, expected) else (false, mem, mem)

/-- `__atomic_exchange_n(ptr, desired, ...)`: returns the old value and the
new `*ptr`. -/
def atomic_exchange (mem desired : Nat) : Nat × Nat := (mem, desired)

/-- `__atomic_or_fetch(ptr, bits, ...)`: returns the new value, which is also
the new `*ptr`. -/
def atomic_or_fetch (mem bits : Nat) : Nat × Nat := (mem ||| bits, mem ||| bits)

/-! ## Platform layer -/

/-- `__afl_thread_pointer_tid`: the thread-pointer register value `tp`,
stored into a `uint32_t` and masked with `AFL_TID_MASK`. -/
def __afl_thread_pointer_tid (tp : Nat) : Nat := (tp % 2 ^ 32) &&& AFL_TID_MASK

/-- `__afl_gettid`: `tls` is the `static __thread uint32_t tid` cache and
`ktid` is what the `gettid` system call returns.  Result: the identifier, the
cache after the call, the events. -/
def __afl_gettid (ktid tls : Nat) : Nat × Nat × List Ev :=
  if tls ≠ 0 then (tls, tls, [])
  else (ktid &&& AFL_TID_MASK, ktid &&& AFL_TID_MASK, [Ev.gettid])

/-! ## Mutex (anonymous) -/

/-- Program points of `afl_mutex_lock`. -/
inductive MutexLockPc where
  /-- Line 327: the relaxed load. -/
  | load
  /-- Lines 332-333: compare-exchange `AFL_UNLOCKED -> AFL_LOCKED`. -/
  | cas
  /-- Lines 336-339: the local `lock` holds what the failed compare-exchange
  saw; set the waiters bit, then test the loop condition. -/
  | set_waiters (lock : Nat)
  /-- Line 341: the `FUTEX_WAIT` call. -/
  | futex
  /-- Suspended in the kernel inside `FUTEX_WAIT`. -/
  | asleep
  /-- Line 342: exchange with `AFL_LOCKED | AFL_HAVE_WAITERS`, then the loop
  condition of line 339. -/
  | xchg
  deriving DecidableEq, Repr

/-- One step of `afl_mutex_lock` on the mutex word. -/
def afl_mutex_lock_step (pc : MutexLockPc) (mutex : Nat) : Out MutexLockPc Nat :=
  match pc with
  | .load =>
    let lock := mutex
    if lock &&& AFL_HAVE_WAITERS ≠ 0 then ⟨.goto .futex, mutex, [.load .relaxed lock]⟩
    else ⟨.goto .cas, mutex, [.load .relaxed lock]⟩
  | .cas =>
    let r := atomic_compare_exchange mutex AFL_UNLOCKED AFL_LOCKED
    if r.1 then ⟨.ret 0, r.2.1, [.cas .acquire .relaxed AFL_UNLOCKED AFL_LOCKED mutex]⟩
    else ⟨.goto (.set_waiters r.2.2), r.2.1, [.cas .acquire .relaxed AFL_UNLOCKED AFL_LOCKED mutex]⟩
  | .set_waiters lock =>
    if lock &&& AFL_HAVE_WAITERS = 0 then
      let r := atomic_compare_exchange mutex lock (AFL_LOCKED ||| AFL_HAVE_WAITERS)
      if r.2.2 ≠ AFL_UNLOCKED then
        ⟨.goto .futex, r.2.1, [.cas .acquire .relaxed lock (AFL_LOCKED ||| AFL_HAVE_WAITERS) mutex]⟩
      else ⟨.ret 0, r.2.1, [.cas .acquire .relaxed lock (AFL_LOCKED ||| AFL_HAVE_WAITERS) mutex]⟩
    else if lock ≠ AFL_UNLOCKED then ⟨.goto .futex, mutex, []⟩
    else ⟨.ret 0, mutex, []⟩
  | .futex =>
    if mutex = AFL_LOCKED ||| AFL_HAVE_WAITERS then
      ⟨.goto .asleep, mutex, [.futex_wait (AFL_LOCKED ||| AFL_HAVE_WAITERS)]⟩
    else ⟨.goto .xchg, mutex, [.futex_wait (AFL_LOCKED ||| AFL_HAVE_WAITERS)]⟩
  | .asleep => ⟨.goto .xchg, mutex, []⟩
  | .xchg =>
    let r := atomic_exchange mutex (AFL_LOCKED ||| AFL_HAVE_WAITERS)
    if r.1 ≠ AFL_UNLOCKED then
      ⟨.goto .futex, r.2, [.xchg .acquire (AFL_LOCKED ||| AFL_HAVE_WAITERS) mutex]⟩
    else ⟨.ret 0, r.2, [.xchg .acquire (AFL_LOCKED ||| AFL_HAVE_WAITERS) mutex]⟩

/-- Program points of `afl_mutex_unlock`. -/
inductive MutexUnlockPc where
  /-- Line 352: the relaxed load (its value is used by the debug trace only). -/
  | load
  /-- Line 356: exchange with `AFL_UNLOCKED`. -/
  | xchg
  /-- Line 357: the `FUTEX_WAKE` call. -/
  | wake
  deriving DecidableEq, Repr

/-- One step of `afl_mutex_unlock` on the mutex word. -/
def afl_mutex_unlock_step (pc : MutexUnlockPc) (mutex : Nat) : Out MutexUnlockPc Nat :=
  match pc with
  | .load => ⟨.goto .xchg, mutex, [.load .relaxed mutex]⟩
  | .xchg =>
    let r := atomic_exchange mutex AFL_UNLOCKED
    if r.1 &&& AFL_HAVE_WAITERS ≠ 0 then
      ⟨.goto .wake, r.2, [.xchg .acquire AFL_UNLOCKED mutex]⟩
    else ⟨.ret 0, r.2, [.xchg .acquire AFL_UNLOCKED mutex]⟩
  | .wake => ⟨.ret 0, mutex, [.futex_wake 1]⟩

/-- What a thread that uses a mutex as `lock; critical section; unlock` is
doing. -/
inductive MutexThread where
  /-- Outside any call, not holding the mutex. -/
  | idle
  /-- Inside `afl_mutex_lock`. -/
  | in_lock (pc : MutexLockPc)
  /-- Returned from `afl_mutex_lock`, `afl_mutex_unlock` not yet called. -/
  | locked
  /-- Inside `afl_mutex_unlock`. -/
  | in_unlock (pc : MutexUnlockPc)
  deriving DecidableEq, Repr

/-- Thread `t` takes its next step: it calls `afl_mutex_lock`, executes one
step of the call it is in, or calls `afl_mutex_unlock`.  A thread suspended
in `FUTEX_WAIT` may take a step at any time (spurious return). -/
def mutex_step {τ : Type} [DecidableEq τ] (s : Sys τ MutexThread Nat) (t : τ) :
    Sys τ MutexThread Nat :=
  match s.th t with
  | .idle => { s with th := Function.update s.th t (.in_lock .load) }
  | .in_lock pc =>
    let o := afl_mutex_lock_step pc s.mem
    { mem := o.mem
      th := Function.update s.th t
        (match o.ctl with
         | .goto pc' => .in_lock pc'
         | .ret _ => .locked)
      log := s.log ++ o.ev.map (fun e => (t, e)) }
  | .locked => { s with th := Function.update s.th t (.in_unlock .load) }
  | .in_unlock pc =>
    let o := afl_mutex_unlock_step pc s.mem
    { mem := o.mem
      th := Function.update s.th t
        (match o.ctl with
         | .goto pc' => .in_unlock pc'
         | .ret _ => .idle)
      log := s.log ++ o.ev.map (fun e => (t, e)) }

/-- The mutex at `AFL_MUTEX_INIT`, every thread idle. -/
def mutex_init (τ : Type) : Sys τ MutexThread Nat := ⟨0, fun _ => .idle, []⟩

/-- The schedule of two threads `0` and `1` on which `afl_mutex_lock` returns
to both: `0` locks; `1` loads and fails its first compare-exchange; `0`
unlocks; the second compare-exchange of `1` fails on the word `0`, which ends
its loop; `0` locks again. -/
def mutex_race : List Nat := [0, 0, 0, 1, 1, 1, 0, 0, 0, 1, 0, 0, 0]

/-! ## Spinlock -/

/-- Program points of `afl_spin_lock`. -/
inductive SpinLockPc where
  /-- Line 253: the first exchange. -/
  | first
  /-- Lines 257-260: pause, exchange, test. -/
  | loop
  deriving DecidableEq, Repr

/-- One step of `afl_spin_lock` on the spinlock word. -/
def afl_spin_lock_step (pc : SpinLockPc) (spinlock : Nat) : Out SpinLockPc Nat :=
  match pc with
  | .first =>
    let r := atomic_exchange spinlock AFL_LOCKED
    if r.1 = 0 then ⟨.ret 0, r.2, [.xchg .acquire AFL_LOCKED spinlock]⟩
    else ⟨.goto .loop, r.2, [.xchg .acquire AFL_LOCKED spinlock]⟩
  | .loop =>
    let r := atomic_exchange spinlock AFL_LOCKED
    if r.1 ≠ AFL_UNLOCKED then ⟨.goto .loop, r.2, [.pause, .xchg .acquire AFL_LOCKED spinlock]⟩
    else ⟨.ret 0, r.2, [.pause, .xchg .acquire AFL_LOCKED spinlock]⟩

/-- Program points of `afl_spin_unlock`. -/
inductive SpinUnlockPc where
  /-- Line 267: the release store. -/
  | store
  deriving DecidableEq, Repr

/-- One step of `afl_spin_unlock` on the spinlock word. -/
def afl_spin_unlock_step (pc : SpinUnlockPc) (_spinlock : Nat) : Out SpinUnlockPc Nat :=
  match pc with
  | .store => ⟨.ret 0, AFL_UNLOCKED, [.store .release AFL_UNLOCKED]⟩

/-- What a thread that uses a spinlock as `lock; critical section; unlock`
is doing. -/
inductive SpinThread where
  /-- Outside any call, not holding the spinlock. -/
  | idle
  /-- Inside `afl_spin_lock`. -/
  | in_lock (pc : SpinLockPc)
  /-- Returned from `afl_spin_lock`, `afl_spin_unlock` not yet called. -/
  | locked
  /-- Inside `afl_spin_unlock`. -/
  | in_unlock (pc : SpinUnlockPc)
  deriving DecidableEq, Repr

/-- Thread `t` takes its next step: it calls `afl_spin_lock`, executes one
step of the call it is in, or calls `afl_spin_unlock`. -/
def spin_step {τ : Type} [DecidableEq τ] (s : Sys τ SpinThread Nat) (t : τ) :
    Sys τ SpinThread Nat :=
  match s.th t with
  | .idle => { s with th := Function.update s.th t (.in_lock .first) }
  | .in_lock pc =>
    let o := afl_spin_lock_step pc s.mem
    { mem := o.mem
      th := Function.update s.th t
        (match o.ctl with
         | .goto pc' => .in_lock pc'
         | .ret _ => .locked)
      log := s.log ++ o.ev.map (fun e => (t, e)) }
  | .locked => { s with th := Function.update s.th t (.in_unlock .store) }
  | .in_unlock pc =>
    let o := afl_spin_unlock_step pc s.mem
    { mem := o.mem
      th := Function.update s.th t
        (match o.ctl with
         | .goto pc' => .in_unlock pc'
         | .ret _ => .idle)
      log := s.log ++ o.ev.map (fun e => (t, e)) }

/-- The spinlock after `afl_spin_init`, every thread idle. -/
def spin_init (τ : Type) : Sys τ SpinThread Nat := ⟨0, fun _ => .idle, []⟩

/-! ## Spinlock, owner-tracked -/

/-- Program points of `afl_spin_owner_lock`. -/
inductive SpinOwnerLockPc where
  /-- Lines 274-281: the relaxed load and the owner test. -/
  | load
  /-- Lines 284-288: compare-exchange `AFL_UNLOCKED -> tid`, pause on failure. -/
  | cas
  deriving DecidableEq, Repr

/-- One step of `afl_spin_owner_lock` by the thread whose thread pointer is
`tp`. -/
def afl_spin_owner_lock_step (tp : Nat) (pc : SpinOwnerLockPc) (spinlock : Nat) :
    Out SpinOwnerLockPc Nat :=
  let tid := __afl_thread_pointer_tid tp
  match pc with
  | .load =>
    let lock := spinlock
    if tid = lock &&& AFL_TID_MASK then ⟨.ret EDEADLOCK, spinlock, [.load .relaxed lock]⟩
    else ⟨.goto .cas, spinlock, [.load .relaxed lock]⟩
  | .cas =>
    let r := atomic_compare_exchange spinlock AFL_UNLOCKED tid
    if r.1 then ⟨.ret 0, r.2.1, [.cas .acquire .relaxed AFL_UNLOCKED tid spinlock]⟩
    else ⟨.goto .cas, r.2.1, [.cas .acquire .relaxed AFL_UNLOCKED tid spinlock, .pause]⟩

/-- Program points of `afl_spin_owner_unlock`. -/
inductive SpinOwnerUnlockPc where
  /-- Lines 296-303: the relaxed load and the owner test. -/
  | load
  /-- Line 305: the release store. -/
  | store
  deriving DecidableEq, Repr

/-- One step of `afl_spin_owner_unlock` by the thread whose thread pointer is
`tp`. -/
def afl_spin_owner_unlock_step (tp : Nat) (pc : SpinOwnerUnlockPc) (spinlock : Nat) :
    Out SpinOwnerUnlockPc Nat :=
  let tid := __afl_thread_pointer_tid tp
  match pc with
  | .load =>
    let lock := spinlock
    if tid ≠ lock &&& AFL_TID_MASK then ⟨.ret EPERM, spinlock, [.load .relaxed lock]⟩
    else ⟨.goto .store, spinlock, [.load .relaxed lock]⟩
  | .store => ⟨.ret 0, AFL_UNLOCKED, [.store .release AFL_UNLOCKED]⟩

/-! ## Mutex, owner-tracked -/

/-- Program points of `afl_mutex_owner_lock`. -/
inductive OwnerLockPc where
  /-- Lines 365-372: the relaxed load and the owner test. -/
  | load
  /-- Line 374, reached with `lock == 0`: compare-exchange `0 -> tid`. -/
  | cas
  /-- Label `try_lock` (lines 378-383): `lock` is the last value seen; or in the
  waiters bit unless `lock` already has it. -/
  | try_lock (lock : Nat)
  /-- Line 381, reached with `lock == AFL_HAVE_WAITERS`: compare-exchange
  `AFL_HAVE_WAITERS -> tid | AFL_HAVE_WAITERS`. -/
  | cas_waiters
  /-- Line 385: `FUTEX_WAIT` with expected value `lock`. -/
  | futex (lock : Nat)
  /-- Suspended in the kernel inside `FUTEX_WAIT`. -/
  | asleep
  /-- Lines 386-388: compare-exchange `0 -> tid | AFL_HAVE_WAITERS`. -/
  | cas_wake
  deriving DecidableEq, Repr

/-- One step of `afl_mutex_owner_lock` by the thread whose thread pointer is
`tp`. -/
def afl_mutex_owner_lock_step (tp : Nat) (pc : OwnerLockPc) (mutex : Nat) :
    Out OwnerLockPc Nat :=
  let tid := __afl_thread_pointer_tid tp
  match pc with
  | .load =>
    let lock := mutex
    if tid = lock &&& AFL_TID_MASK then ⟨.ret EDEADLOCK, mutex, [.load .relaxed lock]⟩
    else if lock = 0 then ⟨.goto .cas, mutex, [.load .relaxed lock]⟩
    else ⟨.goto (.try_lock lock), mutex, [.load .relaxed lock]⟩
  | .cas =>
    let r := atomic_compare_exchange mutex 0 tid
    if r.1 then ⟨.ret 0, r.2.1, [.cas .acquire .relaxed 0 tid mutex]⟩
    else ⟨.goto (.try_lock r.2.2), r.2.1, [.cas .acquire .relaxed 0 tid mutex]⟩
  | .try_lock lock =>
    if lock &&& AFL_HAVE_WAITERS = 0 then
      let r := atomic_or_fetch mutex AFL_HAVE_WAITERS
      if r.1 = AFL_HAVE_WAITERS then
        ⟨.goto .cas_waiters, r.2, [.or_fetch .acquire AFL_HAVE_WAITERS mutex]⟩
      else ⟨.goto (.futex r.1), r.2, [.or_fetch .acquire AFL_HAVE_WAITERS mutex]⟩
    else ⟨.goto (.futex lock), mutex, []⟩
  | .cas_waiters =>
    let r := atomic_compare_exchange mutex AFL_HAVE_WAITERS (tid ||| AFL_HAVE_WAITERS)
    if r.1 then
      ⟨.ret 0, r.2.1, [.cas .acquire .relaxed AFL_HAVE_WAITERS (tid ||| AFL_HAVE_WAITERS) mutex]⟩
    else
      ⟨.goto (.futex r.2.2), r.2.1,
        [.cas .acquire .relaxed AFL_HAVE_WAITERS (tid ||| AFL_HAVE_WAITERS) mutex]⟩
  | .futex lock =>
    if mutex = lock then ⟨.goto .asleep, mutex, [.futex_wait lock]⟩
    else ⟨.goto .cas_wake, mutex, [.futex_wait lock]⟩
  | .asleep => ⟨.goto .cas_wake, mutex, []⟩
  | .cas_wake =>
    let r := atomic_compare_exchange mutex AFL_UNLOCKED (tid ||| AFL_HAVE_WAITERS)
    if r.1 then
      ⟨.ret 0, r.2.1, [.cas .acquire .relaxed AFL_UNLOCKED (tid ||| AFL_HAVE_WAITERS) mutex]⟩
    else
      ⟨.goto (.try_lock r.2.2), r.2.1,
        [.cas .acquire .relaxed AFL_UNLOCKED (tid ||| AFL_HAVE_WAITERS) mutex]⟩

/-- Program points of `afl_mutex_owner_unlock`. -/
inductive OwnerUnlockPc where
  /-- Lines 396-403: the relaxed load and the owner test. -/
  | load
  /-- Line 405: exchange with `AFL_UNLOCKED`. -/
  | xchg
  /-- Line 406: the `FUTEX_WAKE` call. -/
  | wake
  deriving DecidableEq, Repr

/-- One step of `afl_mutex_owner_unlock` by the thread whose thread pointer is
`tp`. -/
def afl_mutex_owner_unlock_step (tp : Nat) (pc : OwnerUnlockPc) (mutex : Nat) :
    Out OwnerUnlockPc Nat :=
  let tid := __afl_thread_pointer_tid tp
  match pc with
  | .load =>
    let lock := mutex
    if tid ≠ lock &&& AFL_TID_MASK then ⟨.ret EPERM, mutex, [.load .relaxed lock]⟩
    else ⟨.goto .xchg, mutex, [.load .relaxed lock]⟩
  | .xchg =>
    let r := atomic_exchange mutex AFL_UNLOCKED
    if r.1 &&& AFL_HAVE_WAITERS ≠ 0 then
      ⟨.goto .wake, r.2, [.xchg .acquire AFL_UNLOCKED mutex]⟩
    else ⟨.ret 0, r.2, [.xchg .acquire AFL_UNLOCKED mutex]⟩
  | .wake => ⟨.ret 0, mutex, [.futex_wake 1]⟩

/-- Where a thread that uses an owner-tracked mutex is. -/
inductive OwnerPhase where
  /-- Outside any call. -/
  | idle
  /-- Inside `afl_mutex_owner_lock`. -/
  | in_lock (pc : OwnerLockPc)
  /-- Inside `afl_mutex_owner_unlock`. -/
  | in_unlock (pc : OwnerUnlockPc)
  deriving DecidableEq, Repr

/-- A thread of the owner-tracked mutex: `held` records that the thread has
completed an acquiring compare-exchange (its `afl_mutex_owner_lock` returned
0) and has not yet executed its unlocking exchange. -/
structure OwnerThread where
  held : Bool
  phase : OwnerPhase
  deriving DecidableEq, Repr

/-- What a thread may do next with an owner-tracked mutex. -/
inductive OwnerAct where
  /-- Call `afl_mutex_owner_lock` (when outside any call). -/
  | call_lock
  /-- Call `afl_mutex_owner_unlock` (when outside any call). -/
  | call_unlock
  /-- Execute the next step of the call it is in. -/
  | step
  deriving DecidableEq, Repr

/-- Thread `a.1`, whose thread pointer is `tp a.1`, does `a.2`; an action that
is not enabled leaves the system as it is. -/
def owner_step {τ : Type} [DecidableEq τ] (tp : τ → Nat) (s : Sys τ OwnerThread Nat)
    (a : τ × OwnerAct) : Sys τ OwnerThread Nat :=
  match (s.th a.1).phase, a.2 with
  | .idle, .call_lock =>
    { s with th := Function.update s.th a.1 ⟨(s.th a.1).held, .in_lock .load⟩ }
  | .idle, .call_unlock =>
    { s with th := Function.update s.th a.1 ⟨(s.th a.1).held, .in_unlock .load⟩ }
  | .in_lock pc, .step =>
    let o := afl_mutex_owner_lock_step (tp a.1) pc s.mem
    { mem := o.mem
      th := Function.update s.th a.1
        (match o.ctl with
         | .goto pc' => ⟨(s.th a.1).held, .in_lock pc'⟩
         | .ret v => ⟨(s.th a.1).held || v == 0, .idle⟩)
      log := s.log ++ o.ev.map (fun e => (a.1, e)) }
  | .in_unlock pc, .step =>
    let o := afl_mutex_owner_unlock_step (tp a.1) pc s.mem
    { mem := o.mem
      th := Function.update s.th a.1
        (match o.ctl with
         | .goto pc' => ⟨(s.th a.1).held && pc != .xchg, .in_unlock pc'⟩
         | .ret _ => ⟨(s.th a.1).held && pc != .xchg, .idle⟩)
      log := s.log ++ o.ev.map (fun e => (a.1, e)) }
  | _, _ => s

/-- The mutex at `AFL_MUTEX_INIT`, every thread outside any call, nobody
holding. -/
def owner_init (τ : Type) : Sys τ OwnerThread Nat := ⟨0, fun _ => ⟨false, .idle⟩, []⟩

/-! ## Mutex, priority-inheritance -/

/-- Memory of a priority-inheritance mutex call: the mutex word and the
calling thread's `static __thread uint32_t tid` of `__afl_gettid`. -/
structure PiMem where
  word : Nat
  tls : Nat
  deriving DecidableEq, Repr

/-- The kernel is not part of the repository: what `FUTEX_LOCK_PI` and
`FUTEX_UNLOCK_PI` leave in the word is a parameter (caller's kernel thread
id, word before, word after). -/
structure PiKernel where
  lock_pi : Nat → Nat → Nat
  unlock_pi : Nat → Nat → Nat

/-- Program points of `afl_mutex_pi_lock`. -/
inductive PiLockPc where
  /-- Line 414: `__afl_gettid()`. -/
  | gettid
  /-- Lines 416-423: the relaxed load, the owner test and the test of `lock`. -/
  | load (tid : Nat)
  /-- Line 423, reached with `lock == 0`: compare-exchange `0 -> tid`. -/
  | cas (tid : Nat)
  /-- Line 424: the `FUTEX_LOCK_PI` call. -/
  | lock_pi
  deriving DecidableEq, Repr

/-- One step of `afl_mutex_pi_lock` by the thread whose kernel thread id is
`ktid`. -/
def afl_mutex_pi_lock_step (K : PiKernel) (ktid : Nat) (pc : PiLockPc) (m : PiMem) :
    Out PiLockPc PiMem :=
  match pc with
  | .gettid =>
    let r := __afl_gettid ktid m.tls
    ⟨.goto (.load r.1), ⟨m.word, r.2.1⟩, r.2.2⟩
  | .load tid =>
    let lock := m.word
    if tid = lock &&& AFL_TID_MASK then ⟨.ret EDEADLOCK, m, [.load .relaxed lock]⟩
    else if lock ≠ 0 then ⟨.goto .lock_pi, m, [.load .relaxed lock]⟩
    else ⟨.goto (.cas tid), m, [.load .relaxed lock]⟩
  | .cas tid =>
    let r := atomic_compare_exchange m.word 0 tid
    if r.1 then ⟨.ret 0, ⟨r.2.1, m.tls⟩, [.cas .acquire .relaxed 0 tid m.word]⟩
    else ⟨.goto .lock_pi, ⟨r.2.1, m.tls⟩, [.cas .acquire .relaxed 0 tid m.word]⟩
  | .lock_pi => ⟨.ret 0, ⟨K.lock_pi ktid m.word, m.tls⟩, [.futex_lock_pi]⟩

/-- Program points of `afl_mutex_pi_unlock`. -/
inductive PiUnlockPc where
  /-- Line 432: `__afl_gettid()`. -/
  | gettid
  /-- Lines 434-439: the relaxed load and the owner test. -/
  | load (tid : Nat)
  /-- Line 441: compare-exchange `tid -> AFL_UNLOCKED`. -/
  | cas (tid : Nat)
  /-- Line 442: the `FUTEX_UNLOCK_PI` call. -/
  | unlock_pi
  deriving DecidableEq, Repr

/-- One step of `afl_mutex_pi_unlock` by the thread whose kernel thread id is
`ktid`. -/
def afl_mutex_pi_unlock_step (K : PiKernel) (ktid : Nat) (pc : PiUnlockPc) (m : PiMem) :
    Out PiUnlockPc PiMem :=
  match pc with
  | .gettid =>
    let r := __afl_gettid ktid m.tls
    ⟨.goto (.load r.1), ⟨m.word, r.2.1⟩, r.2.2⟩
  | .load tid =>
    let lock := m.word
    if tid ≠ lock &&& AFL_TID_MASK then ⟨.ret EPERM, m, [.load .relaxed lock]⟩
    else ⟨.goto (.cas tid), m, [.load .relaxed lock]⟩
  | .cas tid =>
    let r := atomic_compare_exchange m.word tid AFL_UNLOCKED
    if r.1 then ⟨.ret 0, ⟨r.2.1, m.tls⟩, [.cas .acquire .relaxed tid AFL_UNLOCKED m.word]⟩
    else ⟨.goto .unlock_pi, ⟨r.2.1, m.tls⟩, [.cas .acquire .relaxed tid AFL_UNLOCKED m.word]⟩
  | .unlock_pi => ⟨.ret 0, ⟨K.unlock_pi ktid m.word, m.tls⟩, [.futex_unlock_pi]⟩

/-- A kernel that leaves the word as it finds it: used where the kernel is
never entered. -/
def pi_kernel_id : PiKernel := ⟨fun _ w => w, fun _ w => w⟩

/-! ## Recursive mutex

`size_t` is as wide as the platform makes it: `SIZE_MAX` is a parameter and
the arithmetic on `count` is modulo `SIZE_MAX + 1`. -/

/-- The `afl_mutex_recursive_t` structure. -/
structure RecMutex where
  lock : Nat
  count : Nat
  deriving DecidableEq, Repr

/-- `afl_mutex_recursive_init`, returning the initialised structure. -/
def afl_mutex_recursive_init (_m : RecMutex) : RecMutex := ⟨AFL_UNLOCKED, 0⟩

/-- Program points of `afl_mutex_recursive_lock`. -/
inductive RecLockPc where
  /-- Lines 473-482: the relaxed load, the test of `lock` and the owner test. -/
  | load
  /-- Line 478, reached with `lock == 0`: compare-exchange `0 -> tid`, then
  the owner test of line 482. -/
  | cas
  /-- Lines 488-491: the overflow test and the increment of `count`. -/
  | reenter
  /-- Label `try_lock` (lines 495-502): `lock` is the last value seen. -/
  | try_lock (lock : Nat)
  /-- Line 498, reached with `lock == AFL_HAVE_WAITERS`. -/
  | cas_waiters
  /-- Line 504: `FUTEX_WAIT` with expected value `lock`. -/
  | futex (lock : Nat)
  /-- Suspended in the kernel inside `FUTEX_WAIT`. -/
  | asleep
  /-- Lines 505-507: compare-exchange `0 -> tid | AFL_HAVE_WAITERS`. -/
  | cas_wake
  /-- Label `success` (line 510): `count = 1`. -/
  | success
  deriving DecidableEq, Repr

/-- One step of `afl_mutex_recursive_lock` by the thread whose thread pointer
is `tp`. -/
def afl_mutex_recursive_lock_step (SIZE_MAX tp : Nat) (pc : RecLockPc) (m : RecMutex) :
    Out RecLockPc RecMutex :=
  let tid := __afl_thread_pointer_tid tp
  match pc with
  | .load =>
    let lock := m.lock
    if lock = 0 then ⟨.goto .cas, m, [.load .relaxed lock]⟩
    else if tid = lock &&& AFL_TID_MASK then ⟨.goto .reenter, m, [.load .relaxed lock]⟩
    else ⟨.goto (.try_lock lock), m, [.load .relaxed lock]⟩
  | .cas =>
    let r := atomic_compare_exchange m.lock 0 tid
    if r.1 then ⟨.goto .success, ⟨r.2.1, m.count⟩, [.cas .acquire .relaxed 0 tid m.lock]⟩
    else if tid = r.2.2 &&& AFL_TID_MASK then
      ⟨.goto .reenter, ⟨r.2.1, m.count⟩, [.cas .acquire .relaxed 0 tid m.lock]⟩
    else ⟨.goto (.try_lock r.2.2), ⟨r.2.1, m.count⟩, [.cas .acquire .relaxed 0 tid m.lock]⟩
  | .reenter =>
    if (m.count + 1) % (SIZE_MAX + 1) = 0 then ⟨.ret EAGAIN, m, []⟩
    else ⟨.ret 0, ⟨m.lock, (m.count + 1) % (SIZE_MAX + 1)⟩,
      [.count_write ((m.count + 1) % (SIZE_MAX + 1))]⟩
  | .try_lock lock =>
    if lock &&& AFL_HAVE_WAITERS = 0 then
      let r := atomic_or_fetch m.lock AFL_HAVE_WAITERS
      if r.1 = AFL_HAVE_WAITERS then
        ⟨.goto .cas_waiters, ⟨r.2, m.count⟩, [.or_fetch .acquire AFL_HAVE_WAITERS m.lock]⟩
      else ⟨.goto (.futex r.1), ⟨r.2, m.count⟩, [.or_fetch .acquire AFL_HAVE_WAITERS m.lock]⟩
    else ⟨.goto (.futex lock), m, []⟩
  | .cas_waiters =>
    let r := atomic_compare_exchange m.lock AFL_HAVE_WAITERS (tid ||| AFL_HAVE_WAITERS)
    if r.1 then
      ⟨.goto .success, ⟨r.2.1, m.count⟩,
        [.cas .acquire .relaxed AFL_HAVE_WAITERS (tid ||| AFL_HAVE_WAITERS) m.lock]⟩
    else
      ⟨.goto (.futex r.2.2), ⟨r.2.1, m.count⟩,
        [.cas .acquire .relaxed AFL_HAVE_WAITERS (tid ||| AFL_HAVE_WAITERS) m.lock]⟩
  | .futex lock =>
    if m.lock = lock then ⟨.goto .asleep, m, [.futex_wait lock]⟩
    else ⟨.goto .cas_wake, m, [.futex_wait lock]⟩
  | .asleep => ⟨.goto .cas_wake, m, []⟩
  | .cas_wake =>
    let r := atomic_compare_exchange m.lock AFL_UNLOCKED (tid ||| AFL_HAVE_WAITERS)
    if r.1 then
      ⟨.goto .success, ⟨r.2.1, m.count⟩,
        [.cas .acquire .relaxed AFL_UNLOCKED (tid ||| AFL_HAVE_WAITERS) m.lock]⟩
    else
      ⟨.goto (.try_lock r.2.2), ⟨r.2.1, m.count⟩,
        [.cas .acquire .relaxed AFL_UNLOCKED (tid ||| AFL_HAVE_WAITERS) m.lock]⟩
  | .success => ⟨.ret 0, ⟨m.lock, 1⟩, [.count_write 1]⟩

/-- Program points of `afl_mutex_recursive_unlock`. -/
inductive RecUnlockPc where
  /-- Lines 518-525: the relaxed load and the owner test. -/
  | load
  /-- Line 529, left operand: `--mutex->count == 0`. -/
  | dec
  /-- Line 529, right operand: exchange with `AFL_UNLOCKED`. -/
  | xchg
  /-- Line 530: the `FUTEX_WAKE` call. -/
  | wake
  deriving DecidableEq, Repr

/-- One step of `afl_mutex_recursive_unlock` by the thread whose thread
pointer is `tp`. -/
def afl_mutex_recursive_unlock_step (SIZE_MAX tp : Nat) (pc : RecUnlockPc) (m : RecMutex) :
    Out RecUnlockPc RecMutex :=
  let tid := __afl_thread_pointer_tid tp
  match pc with
  | .load =>
    let lock := m.lock
    if tid ≠ lock &&& AFL_TID_MASK then ⟨.ret EPERM, m, [.load .relaxed lock]⟩
    else ⟨.goto .dec, m, [.load .relaxed lock]⟩
  | .dec =>
    let count := (m.count + SIZE_MAX) % (SIZE_MAX + 1)
    if count = 0 then ⟨.goto .xchg, ⟨m.lock, count⟩, [.count_write count]⟩
    else ⟨.ret 0, ⟨m.lock, count⟩, [.count_write count]⟩
  | .xchg =>
    let r := atomic_exchange m.lock AFL_UNLOCKED
    if r.1 &&& AFL_HAVE_WAITERS ≠ 0 then
      ⟨.goto .wake, ⟨r.2, m.count⟩, [.xchg .acquire AFL_UNLOCKED m.lock]⟩
    else ⟨.ret 0, ⟨r.2, m.count⟩, [.xchg .acquire AFL_UNLOCKED m.lock]⟩
  | .wake => ⟨.ret 0, m, [.futex_wake 1]⟩

/-- A call on a recursive mutex. -/
inductive RecOp where
  /-- `afl_mutex_recursive_lock`. -/
  | lock
  /-- `afl_mutex_recursive_unlock`. -/
  | unlock
  deriving DecidableEq, Repr

/-- One whole call by the thread whose thread pointer is `tp`, alone. -/
def rec_call (SIZE_MAX tp fuel : Nat) (op : RecOp) (m : RecMutex) : Option (Res RecMutex) :=
  match op with
  | .lock => exec (afl_mutex_recursive_lock_step SIZE_MAX tp) fuel .load m
  | .unlock => exec (afl_mutex_recursive_unlock_step SIZE_MAX tp) fuel .load m

/-- A sequence of calls by one thread, alone: the return values in order and
the structure after the last call; `none` if a call runs out of fuel. -/
def rec_calls (SIZE_MAX tp fuel : Nat) : List RecOp → RecMutex → Option (List Nat × RecMutex)
  | [], m => some ([], m)
  | op :: ops, m =>
    match rec_call SIZE_MAX tp fuel op m with
    | none => none
    | some r =>
      match rec_calls SIZE_MAX tp fuel ops r.mem with
      | none => none
      | some rs => some (r.ret :: rs.1, rs.2)

/-- Number of `lock` calls in a sequence. -/
def locks (ops : List RecOp) : Nat := ops.count .lock

/-- Number of `unlock` calls in a sequence. -/
def unlocks (ops : List RecOp) : Nat := ops.count .unlock

/-- A sequence is well nested with depth below `SIZE_MAX`: every prefix has
at least as many locks as unlocks, and fewer than `SIZE_MAX` outstanding. -/
def WellNested (SIZE_MAX : Nat) (ops : List RecOp) : Prop :=
  ∀ p, p <+: ops → unlocks p ≤ locks p ∧ locks p - unlocks p < SIZE_MAX

/-! ## Once -/

/-- Program points of `afl_once`. -/
inductive OncePc where
  /-- Lines 556-559: the relaxed load and the test of `AFL_SUCCESS`. -/
  | load
  /-- Label `try_lock` (lines 562-573): compare-exchange `0 -> AFL_LOCKED`, on
  failure the test of `AFL_SUCCESS`. -/
  | try_lock
  /-- Line 564: the call of `init`. -/
  | call_init
  /-- Inside `init`, which does not touch the word. -/
  | in_init
  /-- Line 566: exchange with `AFL_SUCCESS`. -/
  | publish
  /-- Line 567: the `FUTEX_WAKE` call. -/
  | wake
  /-- Lines 575-580: compare-exchange `AFL_LOCKED -> AFL_LOCKED | AFL_HAVE_WAITERS`;
  on failure the test of line 579. -/
  | set_waiters
  /-- Line 577: the `FUTEX_WAIT` call, then the test of line 579 with
  `lock == AFL_LOCKED`. -/
  | futex
  /-- Suspended in the kernel inside `FUTEX_WAIT`. -/
  | asleep
  deriving DecidableEq, Repr

/-- One step of `afl_once` on the once word. -/
def afl_once_step (pc : OncePc) (once : Nat) : Out OncePc Nat :=
  match pc with
  | .load =>
    let lock := once
    if lock &&& AFL_SUCCESS ≠ 0 then ⟨.ret 0, once, [.load .relaxed lock]⟩
    else ⟨.goto .try_lock, once, [.load .relaxed lock]⟩
  | .try_lock =>
    let r := atomic_compare_exchange once AFL_UNLOCKED AFL_LOCKED
    if r.1 then ⟨.goto .call_init, r.2.1, [.cas .acquire .relaxed AFL_UNLOCKED AFL_LOCKED once]⟩
    else if r.2.2 &&& AFL_SUCCESS ≠ 0 then
      ⟨.ret 0, r.2.1, [.cas .acquire .relaxed AFL_UNLOCKED AFL_LOCKED once]⟩
    else ⟨.goto .set_waiters, r.2.1, [.cas .acquire .relaxed AFL_UNLOCKED AFL_LOCKED once]⟩
  | .call_init => ⟨.goto .in_init, once, [.init_call]⟩
  | .in_init => ⟨.goto .publish, once, [.init_return]⟩
  | .publish =>
    let r := atomic_exchange once AFL_SUCCESS
    if r.1 &&& AFL_HAVE_WAITERS ≠ 0 then
      ⟨.goto .wake, r.2, [.xchg .acquire AFL_SUCCESS once]⟩
    else ⟨.ret 0, r.2, [.xchg .acquire AFL_SUCCESS once]⟩
  | .wake => ⟨.ret 0, once, [.futex_wake INT32_MAX]⟩
  | .set_waiters =>
    let r := atomic_compare_exchange once AFL_LOCKED (AFL_LOCKED ||| AFL_HAVE_WAITERS)
    if r.1 then
      ⟨.goto .futex, r.2.1,
        [.cas .acquire .relaxed AFL_LOCKED (AFL_LOCKED ||| AFL_HAVE_WAITERS) once]⟩
    else if r.2.2 &&& AFL_SUCCESS = 0 then
      ⟨.goto .try_lock, r.2.1,
        [.cas .acquire .relaxed AFL_LOCKED (AFL_LOCKED ||| AFL_HAVE_WAITERS) once]⟩
    else
      ⟨.ret 0, r.2.1, [.cas .acquire .relaxed AFL_LOCKED (AFL_LOCKED ||| AFL_HAVE_WAITERS) once]⟩
  | .futex =>
    if once = AFL_LOCKED ||| AFL_HAVE_WAITERS then
      ⟨.goto .asleep, once, [.futex_wait (AFL_LOCKED ||| AFL_HAVE_WAITERS)]⟩
    else ⟨.goto .try_lock, once, [.futex_wait (AFL_LOCKED ||| AFL_HAVE_WAITERS)]⟩
  | .asleep => ⟨.goto .try_lock, once, []⟩

/-- What a thread that calls `afl_once` is doing. -/
inductive OnceThread where
  /-- Has not called `afl_once` yet. -/
  | idle
  /-- Inside `afl_once`. -/
  | in_once (pc : OncePc)
  /-- Its last call of `afl_once` returned `v`. -/
  | returned (v : Nat)
  deriving DecidableEq, Repr

/-- Thread `t` takes its next step: it calls `afl_once` (again), or executes
one step of the call it is in. -/
def once_step {τ : Type} [DecidableEq τ] (s : Sys τ OnceThread Nat) (t : τ) :
    Sys τ OnceThread Nat :=
  match s.th t with
  | .idle => { s with th := Function.update s.th t (.in_once .load) }
  | .returned _ => { s with th := Function.update s.th t (.in_once .load) }
  | .in_once pc =>
    let o := afl_once_step pc s.mem
    { mem := o.mem
      th := Function.update s.th t
        (match o.ctl with
         | .goto pc' => .in_once pc'
         | .ret v => .returned v)
      log := s.log ++ o.ev.map (fun e => (t, e)) }

/-- The once word at `AFL_ONCE_INIT`, every thread idle. -/
def once_init (τ : Type) : Sys τ OnceThread Nat := ⟨0, fun _ => .idle, []⟩

/-- How many times `init` has been invoked so far. -/
def init_calls {τ T M : Type} (s : Sys τ T M) : Nat :=
  s.log.countP (fun e => e.2 == Ev.init_call)

/-- How many invocations of `init` have returned so far. -/
def init_returns {τ T M : Type} (s : Sys τ T M) : Nat :=
  s.log.countP (fun e => e.2 == Ev.init_return)

/-! ## Invariants used in the proofs -/

/-- A spinlock thread that has acquired and not yet stored `AFL_UNLOCKED`. -/
def SpinThread.holds : SpinThread → Bool
  | .locked => true
  | .in_unlock _ => true
  | _ => false

/-- Invariant of the spinlock: the word is 0 or 1, at most one thread holds,
and the word is 1 while a thread holds. -/
def SpinInv {τ : Type} (s : Sys τ SpinThread Nat) : Prop :=
  (s.mem = 0 ∧ ∀ t, (s.th t).holds = false) ∨
  (s.mem = 1 ∧ ∀ t t', (s.th t).holds = true → (s.th t').holds = true → t = t')

/-- A thread of `afl_once` that is neither running the initializer nor done:
it has not called, or it is at a program point before the compare-exchange
succeeded. -/
def OnceThread.quiet : OnceThread → Bool
  | .idle => true
  | .in_once .load => true
  | .in_once .try_lock => true
  | .in_once .set_waiters => true
  | .in_once .futex => true
  | .in_once .asleep => true
  | _ => false

/-- What a thread of `afl_once` may be once the word is `AFL_SUCCESS`: quiet,
about to wake the waiters, or returned with 0. -/
def OnceThread.settled : OnceThread → Bool
  | .in_once .wake => true
  | .returned v => v == 0
  | th => th.quiet

/-- Invariant of `afl_once`, in three stages: nothing has happened; one thread
`t0` has won the compare-exchange and is about to call, is inside, or has left
the initializer while all others are quiet; the word is `AFL_SUCCESS` and the
initializer has been called and has returned exactly once. -/
def OnceInv {τ : Type} (s : Sys τ OnceThread Nat) : Prop :=
  (s.mem = 0 ∧ init_calls s = 0 ∧ init_returns s = 0 ∧ ∀ t, (s.th t).quiet = true) ∨
  (∃ t0, (s.mem = AFL_LOCKED ∨ s.mem = AFL_LOCKED ||| AFL_HAVE_WAITERS) ∧
    (∀ t, t ≠ t0 → (s.th t).quiet = true) ∧
    ((s.th t0 = .in_once .call_init ∧ init_calls s = 0 ∧ init_returns s = 0) ∨
     (s.th t0 = .in_once .in_init ∧ init_calls s = 1 ∧ init_returns s = 0) ∨
     (s.th t0 = .in_once .publish ∧ init_calls s = 1 ∧ init_returns s = 1))) ∨
  (s.mem = AFL_SUCCESS ∧ init_calls s = 1 ∧ init_returns s = 1 ∧
    ∀ t, (s.th t).settled = true)

/-- Invariant of the owner-tracked mutex: a thread about to execute its
unlocking exchange holds; and either the owner bits are 0 and nobody holds, or
exactly one thread holds and the owner bits are its identifier. -/
def OwnerInv {τ : Type} (tp : τ → Nat) (s : Sys τ OwnerThread Nat) : Prop :=
  (∀ t, (s.th t).phase = .in_unlock .xchg → (s.th t).held = true) ∧
  ((s.mem &&& AFL_TID_MASK = 0 ∧ ∀ t, (s.th t).held = false) ∨
   (∃ t0, (s.th t0).held = true ∧
      s.mem &&& AFL_TID_MASK = __afl_thread_pointer_tid (tp t0) ∧
      ∀ t, t ≠ t0 → (s.th t).held = false))

/-! ## Example inputs -/

/-- Two threads, with thread pointers 1 and 2. -/
def owner_example_tp (b : Bool) : Nat := if b then 1 else 2

/-- Thread `true` locks; thread `false` calls lock, sets the waiters bit and
goes to sleep; `true` unlocks and wakes; `false` wakes up and acquires. -/
def owner_example_sched : List (Bool × OwnerAct) :=
  [(true, .call_lock), (true, .step), (true, .step),
   (false, .call_lock), (false, .step), (false, .step), (false, .step),
   (true, .call_unlock), (true, .step), (true, .step), (true, .step),
   (false, .step), (false, .step)]

/-! ## Running a call under interference -/

/-- Run a function from program point `l` while other threads act: before the
caller's step number `k` the memory `m` has become `env k m`. -/
def exec_env {L S : Type} (step : L → S → Out L S) (env : Nat → S → S) :
    Nat → Nat → L → S → Option (Res S)
  | 0, _, _, _ => none
  | fuel + 1, k, l, m =>
    match (step l (env k m)).ctl with
    | .ret v => some ⟨v, (step l (env k m)).mem, (step l (env k m)).ev⟩
    | .goto l' =>
      match exec_env step env fuel (k + 1) l' (step l (env k m)).mem with
      | some r => some ⟨r.ret, r.mem, (step l (env k m)).ev ++ r.log⟩
      | none => none

/-- The interference of the mutex race: the holder releases the mutex (the
word becomes 0) just before the caller's third step. -/
def release_before_third_step (k : Nat) (m : Nat) : Nat := if k = 2 then 0 else m

/-- Is the event an acquiring operation of `afl_mutex_lock`: the
compare-exchange `AFL_UNLOCKED -> AFL_LOCKED` or an exchange with
`AFL_LOCKED | AFL_HAVE_WAITERS` that observed `AFL_UNLOCKED`? -/
def Ev.isMutexAcquire : Ev → Bool
  | .cas _ _ expected desired observed =>
    expected == AFL_UNLOCKED && desired == AFL_LOCKED && observed == AFL_UNLOCKED
  | .xchg _ desired observed =>
    desired == (AFL_LOCKED ||| AFL_HAVE_WAITERS) && observed == AFL_UNLOCKED
  | _ => false

/-! ## Mutex (anonymous) with the kernel's futex queue -/

/-- The mutex word, the threads, and the kernel's queue of the threads that
are suspended in `FUTEX_WAIT` on the word. -/
structure MutexK (τ : Type) where
  word : Nat
  th : τ → MutexThread
  queue : List τ

/-- Thread `a.1` takes its next step, as in `mutex_step`.  A `FUTEX_WAIT`
that finds the expected value puts the caller on the queue; a queued thread
that steps returns spuriously; `FUTEX_WAKE` with count 1 takes one thread
from the queue, if there is one (the kernel's choice is `a.2`), and that
thread continues after its `FUTEX_WAIT`. -/
def mutex_kstep {τ : Type} [DecidableEq τ] (s : MutexK τ) (a : τ × Nat) : MutexK τ :=
  match s.th a.1 with
  | .idle => { s with th := Function.update s.th a.1 (.in_lock .load) }
  | .in_lock .futex =>
    if s.word = AFL_LOCKED ||| AFL_HAVE_WAITERS then
      { word := (afl_mutex_lock_step .futex s.word).mem
        th := Function.update s.th a.1 (.in_lock .asleep)
        queue := s.queue ++ [a.1] }
    else
      { word := (afl_mutex_lock_step .futex s.word).mem
        th := Function.update s.th a.1 (.in_lock .xchg)
        queue := s.queue }
  | .in_lock .asleep =>
    { word := s.word
      th := Function.update s.th a.1 (.in_lock .xchg)
      queue := s.queue.filter (fun t => t ≠ a.1) }
  | .in_lock pc =>
    { word := (afl_mutex_lock_step pc s.word).mem
      th := Function.update s.th a.1
        (match (afl_mutex_lock_step pc s.word).ctl with
         | .goto pc' => .in_lock pc'
         | .ret _ => .locked)
      queue := s.queue }
  | .locked => { s with th := Function.update s.th a.1 (.in_unlock .load) }
  | .in_unlock .wake =>
    match s.queue[a.2 % s.queue.length]? with
    | some w =>
      { word := s.word
        th := Function.update (Function.update s.th a.1 .idle) w (.in_lock .xchg)
        queue := s.queue.filter (fun t => t ≠ w) }
    | none => { s with th := Function.update s.th a.1 .idle }
  | .in_unlock pc =>
    { word := (afl_mutex_unlock_step pc s.word).mem
      th := Function.update s.th a.1
        (match (afl_mutex_unlock_step pc s.word).ctl with
         | .goto pc' => .in_unlock pc'
         | .ret _ => .idle)
      queue := s.queue }

/-- The mutex at `AFL_MUTEX_INIT`, every thread idle, nobody suspended. -/
def mutex_kinit (τ : Type) : MutexK τ := ⟨0, fun _ => .idle, []⟩

/-- Thread 0 locks; thread 1 fails to lock, sets the waiters bit and is
suspended; thread 0 calls unlock and executes its exchange (its `FUTEX_WAKE`
is still to come). -/
def sleeper_sched : List (Nat × Nat) :=
  [(0, 0), (0, 0), (0, 0), (1, 0), (1, 0), (1, 0), (1, 0), (1, 0), (0, 0), (0, 0), (0, 0)]

/-! ## Recursive mutex, concurrently -/

/-- Where a thread that uses a recursive mutex is. -/
inductive RecPhase where
  /-- Outside any call. -/
  | idle
  /-- Inside `afl_mutex_recursive_lock`. -/
  | in_lock (pc : RecLockPc)
  /-- Inside `afl_mutex_recursive_unlock`. -/
  | in_unlock (pc : RecUnlockPc)
  deriving DecidableEq, Repr

/-- A thread of the recursive mutex: `held` records that the thread has
completed an acquiring compare-exchange of `afl_mutex_recursive_lock` and has
not yet executed the unlocking exchange of `afl_mutex_recursive_unlock`. -/
structure RecThread where
  held : Bool
  phase : RecPhase
  deriving DecidableEq, Repr

/-- Thread `a.1`, whose thread pointer is `tp a.1`, does `a.2` on the
recursive mutex; an action that is not enabled leaves the system as it is.
A step of the lock that goes to `success` is a compare-exchange that
succeeded. -/
def rec_step {τ : Type} [DecidableEq τ] (SIZE_MAX : Nat) (tp : τ → Nat)
    (s : Sys τ RecThread RecMutex) (a : τ × OwnerAct) : Sys τ RecThread RecMutex :=
  match (s.th a.1).phase, a.2 with
  | .idle, .call_lock =>
    { s with th := Function.update s.th a.1 ⟨(s.th a.1).held, .in_lock .load⟩ }
  | .idle, .call_unlock =>
    { s with th := Function.update s.th a.1 ⟨(s.th a.1).held, .in_unlock .load⟩ }
  | .in_lock pc, .step =>
    let o := afl_mutex_recursive_lock_step SIZE_MAX (tp a.1) pc s.mem
    { mem := o.mem
      th := Function.update s.th a.1
        (match o.ctl with
         | .goto pc' => ⟨(s.th a.1).held || pc' == .success, .in_lock pc'⟩
         | .ret _ => ⟨(s.th a.1).held, .idle⟩)
      log := s.log ++ o.ev.map (fun e => (a.1, e)) }
  | .in_unlock pc, .step =>
    let o := afl_mutex_recursive_unlock_step SIZE_MAX (tp a.1) pc s.mem
    { mem := o.mem
      th := Function.update s.th a.1
        (match o.ctl with
         | .goto pc' => ⟨(s.th a.1).held && pc != .xchg, .in_unlock pc'⟩
         | .ret _ => ⟨(s.th a.1).held && pc != .xchg, .idle⟩)
      log := s.log ++ o.ev.map (fun e => (a.1, e)) }
  | _, _ => s

/-- The recursive mutex after `afl_mutex_recursive_init`, every thread outside
any call, nobody holding. -/
def rec_init (τ : Type) : Sys τ RecThread RecMutex :=
  ⟨afl_mutex_recursive_init ⟨0, 0⟩, fun _ => ⟨false, .idle⟩, []⟩

/-- Thread `true` locks; thread `false` calls lock and loads the owner's
identifier; `true` unlocks; `false` ors the waiters bit into the free word. -/
def waiters_alone_sched : List (Bool × OwnerAct) :=
  [(true, .call_lock), (true, .step), (true, .step),
   (false, .call_lock), (false, .step),
   (true, .call_unlock), (true, .step), (true, .step),
   (false, .step)]

/-- The same on the recursive mutex, whose lock and unlock take one step more
(the writes of `count`). -/
def rec_waiters_alone_sched : List (Bool × OwnerAct) :=
  [(true, .call_lock), (true, .step), (true, .step), (true, .step),
   (false, .call_lock), (false, .step),
   (true, .call_unlock), (true, .step), (true, .step), (true, .step),
   (false, .step)]

/-- Thread 0 wins the compare-exchange of `afl_once` and is inside `init`;
thread 1 sets the waiters bit and is suspended; thread 2 makes two passes
through lines 562-580. -/
def once_spin_sched : List Nat :=
  [0, 0, 0, 0, 1, 1, 1, 1, 1, 2, 2, 2, 2, 2, 2]

/-- The words an owner-tracked mutex can hold: 0, the waiters bit alone, the
identifier of a thread, or the identifier of a thread with the waiters
bit. -/
def WordShape {τ : Type} (tp : τ → Nat) (w : Nat) : Prop :=
  w = 0 ∨ w = AFL_HAVE_WAITERS ∨
    ∃ t, w = __afl_thread_pointer_tid (tp t) ∨
      w = __afl_thread_pointer_tid (tp t) ||| AFL_HAVE_WAITERS

/-- Invariant of the mutex with its futex queue: the queue holds exactly the
suspended threads; and if the waiters bit is clear while a thread is
suspended, some thread is about to call `FUTEX_WAKE` or about to execute the
exchange of line 342. -/
def MutexKInv {τ : Type} (s : MutexK τ) : Prop :=
  (∀ t, t ∈ s.queue ↔ s.th t = .in_lock .asleep) ∧
  (s.word &&& AFL_HAVE_WAITERS = 0 → (∃ t, s.th t = .in_lock .asleep) →
    ∃ t, s.th t = .in_unlock .wake ∨ s.th t = .in_lock .xchg)

/-- Invariant of the recursive mutex: a thread that is about to decrement the
count or to execute its unlocking exchange holds; and either the owner bits
are 0 and nobody holds, or exactly one thread holds and the owner bits are
its identifier. -/
def RecInv {τ : Type} (tp : τ → Nat) (s : Sys τ RecThread RecMutex) : Prop :=
  (∀ t, ((s.th t).phase = .in_unlock .dec ∨ (s.th t).phase = .in_unlock .xchg) →
    (s.th t).held = true) ∧
  ((s.mem.lock &&& AFL_TID_MASK = 0 ∧ ∀ t, (s.th t).held = false) ∨
   (∃ t0, (s.th t0).held = true ∧
      s.mem.lock &&& AFL_TID_MASK = __afl_thread_pointer_tid (tp t0) ∧
      ∀ t, t ≠ t0 → (s.th t).held = false))

/-- The `__afl_gettid` cache of a thread with kernel thread id `ktid` after
`n` calls of `__afl_gettid`, starting from the zero-initialised
`static __thread` variable. -/
def gettid_cache (ktid : Nat) : Nat → Nat
  | 0 => 0
  | n + 1 => (__afl_gettid ktid (gettid_cache ktid n)).2.1

/-! ## Theorems -/

/-! ### Helper lemmas -/

theorem exec_mono {L S : Type} (step : L → S → Out L S) (n : Nat) :
    ∀ (k : Nat) (l : L) (m : S) (r : Res S),
      exec step n l m = some r → exec step (n + k) l m = some r := by
  induction n with
  | zero => intro k l m r h; simp [exec] at h
  | succ n ih =>
    intro k l m r h
    rw [Nat.add_right_comm]
    unfold exec at h ⊢
    cases hc : (step l m).ctl with
    | ret v => simpa [hc] using h
    | goto l' =>
      simp only [hc] at h ⊢
      cases hr : exec step n l' (step l m).mem with
      | none => simp [hr] at h
      | some r' =>
        rw [ih k l' _ r' hr]
        simpa [hr] using h

theorem exec_of_le {L S : Type} (step : L → S → Out L S) {n fuel : Nat} (h : n ≤ fuel)
    {l : L} {m : S} {r : Res S} (hr : exec step n l m = some r) :
    exec step fuel l m = some r := by
  obtain ⟨k, rfl⟩ := Nat.exists_eq_add_of_le h
  exact exec_mono step n k l m r hr

theorem exec_returns_of_ret {L S : Type} {step : L → S → Out L S} {l : L} {m : S} {v : Nat}
    (n : Nat) (h : (step l m).ctl = .ret v) :
    ∃ r, exec step (n + 1) l m = some r ∧ r.ret = v := by
  refine ⟨⟨v, (step l m).mem, (step l m).ev⟩, ?_, rfl⟩
  simp [exec, h]

theorem exec_returns_of_goto {L S : Type} {step : L → S → Out L S} {l l' : L} {m : S} {v : Nat}
    {n : Nat} (h : (step l m).ctl = .goto l')
    (hr : ∃ r, exec step n l' (step l m).mem = some r ∧ r.ret = v) :
    ∃ r, exec step (n + 1) l m = some r ∧ r.ret = v := by
  obtain ⟨r, hr, hv⟩ := hr
  refine ⟨⟨r.ret, r.mem, (step l m).ev ++ r.log⟩, ?_, hv⟩
  simp [exec, h, hr]

theorem exec_returns_of_step {L S : Type} {step : L → S → Out L S} {l : L} {m : S}
    {v : Nat} {n : Nat} (l' : L) (m' : S)
    (h : (step l m).ctl = .goto l') (hm : (step l m).mem = m')
    (hr : ∃ r, exec step n l' m' = some r ∧ r.ret = v) :
    ∃ r, exec step (n + 1) l m = some r ∧ r.ret = v :=
  exec_returns_of_goto h (hm ▸ hr)

theorem exec_returns_of_le {L S : Type} {step : L → S → Out L S} {l : L} {m : S} {v : Nat}
    {n fuel : Nat} (h : n ≤ fuel) (hr : ∃ r, exec step n l m = some r ∧ r.ret = v) :
    ∃ r, exec step fuel l m = some r ∧ r.ret = v := by
  obtain ⟨r, hr, hv⟩ := hr
  exact ⟨r, exec_of_le step h hr, hv⟩

theorem exec_result_of_ret {L S : Type} {step : L → S → Out L S} {l : L} {m mf : S} {v : Nat}
    (n : Nat) (h : (step l m).ctl = .ret v) (hm : (step l m).mem = mf) :
    ∃ r, exec step (n + 1) l m = some r ∧ r.ret = v ∧ r.mem = mf := by
  refine ⟨⟨v, (step l m).mem, (step l m).ev⟩, ?_, rfl, hm⟩
  simp [exec, h]

theorem exec_result_of_step {L S : Type} {step : L → S → Out L S} {l : L} {m mf : S}
    {v : Nat} {n : Nat} (l' : L) (m' : S)
    (h : (step l m).ctl = .goto l') (hm : (step l m).mem = m')
    (hr : ∃ r, exec step n l' m' = some r ∧ r.ret = v ∧ r.mem = mf) :
    ∃ r, exec step (n + 1) l m = some r ∧ r.ret = v ∧ r.mem = mf := by
  obtain ⟨r, hr, hv, hmf⟩ := hr
  refine ⟨⟨r.ret, r.mem, (step l m).ev ++ r.log⟩, ?_, hv, hmf⟩
  simp [exec, h, hm, hr]

theorem exec_result_of_le {L S : Type} {step : L → S → Out L S} {l : L} {m mf : S} {v : Nat}
    {n fuel : Nat} (h : n ≤ fuel) (hr : ∃ r, exec step n l m = some r ∧ r.ret = v ∧ r.mem = mf) :
    ∃ r, exec step fuel l m = some r ∧ r.ret = v ∧ r.mem = mf := by
  obtain ⟨r, hr, hv⟩ := hr
  exact ⟨r, exec_of_le step h hr, hv⟩

theorem exec_eq_of_ret {L S : Type} {step : L → S → Out L S} {l : L} {m mf : S} {v : Nat}
    {ev : List Ev} (n : Nat) (h : (step l m).ctl = .ret v) (hm : (step l m).mem = mf)
    (he : (step l m).ev = ev) :
    exec step (n + 1) l m = some ⟨v, mf, ev⟩ := by
  simp [exec, h, hm, he]

theorem exec_eq_of_step {L S : Type} {step : L → S → Out L S} {l : L} {m mf : S} {v : Nat}
    {ev log : List Ev} {n : Nat} (l' : L) (m' : S)
    (h : (step l m).ctl = .goto l') (hm : (step l m).mem = m') (he : (step l m).ev = ev)
    (hr : exec step n l' m' = some ⟨v, mf, log⟩) :
    exec step (n + 1) l m = some ⟨v, mf, ev ++ log⟩ := by
  simp [exec, h, hm, he, hr]

theorem run_invariant {σ A : Type} (step : σ → A → σ) (P : σ → Prop)
    (hstep : ∀ s a, P s → P (step s a)) :
    ∀ (sched : List A) (s : σ), P s → P (run step s sched) := by
  intro sched
  induction sched with
  | nil => intro s h; exact h
  | cons a rest ih => intro s h; exact ih (step s a) (hstep s a h)

theorem tid_and_mask (tp : Nat) :
    __afl_thread_pointer_tid tp &&& AFL_TID_MASK = __afl_thread_pointer_tid tp := by
  unfold __afl_thread_pointer_tid
  rw [Nat.and_assoc, Nat.and_self]

theorem tid_and_waiters (tp : Nat) : __afl_thread_pointer_tid tp &&& AFL_HAVE_WAITERS = 0 := by
  unfold __afl_thread_pointer_tid
  rw [Nat.and_assoc]
  have : AFL_TID_MASK &&& AFL_HAVE_WAITERS = 0 := by decide
  rw [this, Nat.and_zero]

theorem or_waiters_and_mask (w : Nat) :
    (w ||| AFL_HAVE_WAITERS) &&& AFL_TID_MASK = w &&& AFL_TID_MASK := by
  rw [Nat.and_distrib_right]
  have : AFL_HAVE_WAITERS &&& AFL_TID_MASK = 0 := by decide
  rw [this, Nat.or_zero]

theorem tid_or_waiters_and_mask (tp : Nat) :
    (__afl_thread_pointer_tid tp ||| AFL_HAVE_WAITERS) &&& AFL_TID_MASK
      = __afl_thread_pointer_tid tp := by
  rw [or_waiters_and_mask, tid_and_mask]

theorem locked_waiters_and_success : (2147483649 &&& 1073741824 : Nat) = 0 := by decide

theorem locked_waiters_and_waiters : (2147483649 &&& 2147483648 : Nat) = 2147483648 := by
  decide

theorem locked_and_waiters : (1 &&& 2147483648 : Nat) = 0 := by decide

theorem success_and_waiters : (1073741824 &&& 2147483648 : Nat) = 0 := by decide

/-! ### Sequential behaviour -/

/-- C6: with no other thread acting, `afl_mutex_lock` on the word 0 returns 0
and leaves `AFL_LOCKED`, the following `afl_mutex_unlock` returns 0 and leaves
exactly 0, and the two calls consist of a load and one compare-exchange, and
of a load and one exchange: no system call is issued. -/
theorem mutex_uncontended_round_trip (fuel : Nat) (hf : 2 ≤ fuel) :
    ∃ r₁ r₂ : Res Nat,
      exec afl_mutex_lock_step fuel .load 0 = some r₁ ∧
      r₁.ret = 0 ∧ r₁.mem = AFL_LOCKED ∧
      r₁.log = [.load .relaxed 0, .cas .acquire .relaxed 0 1 0] ∧
      r₁.log.filter Ev.isSyscall = [] ∧
      exec afl_mutex_unlock_step fuel .load r₁.mem = some r₂ ∧
      r₂.ret = 0 ∧ r₂.mem = 0 ∧
      r₂.log = [.load .relaxed 1, .xchg .acquire 0 1] ∧
      r₂.log.filter Ev.isSyscall = [] := by
  refine ⟨⟨0, 1, [.load .relaxed 0, .cas .acquire .relaxed 0 1 0]⟩,
    ⟨0, 0, [.load .relaxed 1, .xchg .acquire 0 1]⟩, ?_, rfl, rfl, rfl, rfl, ?_, rfl, rfl, rfl, rfl⟩
  · exact exec_of_le _ hf (by decide)
  · exact exec_of_le _ hf (by decide)

theorem mutex_uncontended_round_trip_witness :
    ∃ r₁ r₂ : Res Nat,
      exec afl_mutex_lock_step 2 .load 0 = some r₁ ∧
      r₁.ret = 0 ∧ r₁.mem = AFL_LOCKED ∧
      r₁.log = [.load .relaxed 0, .cas .acquire .relaxed 0 1 0] ∧
      r₁.log.filter Ev.isSyscall = [] ∧
      exec afl_mutex_unlock_step 2 .load r₁.mem = some r₂ ∧
      r₂.ret = 0 ∧ r₂.mem = 0 ∧
      r₂.log = [.load .relaxed 1, .xchg .acquire 0 1] ∧
      r₂.log.filter Ev.isSyscall = [] :=
  mutex_uncontended_round_trip 2 (by decide)

/-- C5: called alone on the word 0, `afl_once` invokes the initializer exactly
once, returns 0 and leaves the word equal to `AFL_SUCCESS`; called on any word
that has the `AFL_SUCCESS` bit, it returns 0 after its load alone: it does not
invoke the initializer, issues no system call and does not write the word. -/
theorem once_sequential (fuel : Nat) (hf : 5 ≤ fuel) :
    (∃ r : Res Nat, exec afl_once_step fuel .load 0 = some r ∧
      r.ret = 0 ∧ r.mem = AFL_SUCCESS ∧
      r.log.count .init_call = 1 ∧ r.log.count .init_return = 1) ∧
    (∀ w : Nat, w &&& AFL_SUCCESS ≠ 0 →
      exec afl_once_step fuel .load w = some ⟨0, w, [.load .relaxed w]⟩) := by
  constructor
  · refine ⟨⟨0, AFL_SUCCESS, [.load .relaxed 0, .cas .acquire .relaxed 0 1 0, .init_call,
      .init_return, .xchg .acquire AFL_SUCCESS 1]⟩, ?_, rfl, rfl, by decide, by decide⟩
    exact exec_of_le _ hf (by decide)
  · intro w hw
    refine exec_of_le _ (Nat.le_trans (by decide : 1 ≤ 5) hf) ?_
    simp [exec, afl_once_step, hw]

theorem once_sequential_witness :
    (∃ r : Res Nat, exec afl_once_step 5 .load 0 = some r ∧
      r.ret = 0 ∧ r.mem = AFL_SUCCESS ∧
      r.log.count .init_call = 1 ∧ r.log.count .init_return = 1) ∧
    (∀ w : Nat, w &&& AFL_SUCCESS ≠ 0 →
      exec afl_once_step 5 .load w = some ⟨0, w, [.load .relaxed w]⟩) :=
  once_sequential 5 (by decide)

/-! ### Error returns -/

/-- C8, counterexample: a thread whose `__afl_gettid` cache is still empty
calls `afl_mutex_pi_lock` on a word whose owner bits are its identifier; the
call returns `EDEADLOCK` without writing the word, but it has issued the
`gettid` system call. -/
theorem already_owned_pi_lock_issues_gettid :
    5 &&& AFL_TID_MASK = (__afl_gettid 5 0).1 ∧
    ∃ r : Res PiMem, exec (afl_mutex_pi_lock_step pi_kernel_id 5) 2 .gettid ⟨5, 0⟩ = some r ∧
      r.ret = EDEADLOCK ∧ r.mem.word = 5 ∧ r.log.filter Ev.isSyscall = [.gettid] :=
  ⟨by decide, ⟨EDEADLOCK, ⟨5, 5⟩, [.gettid, .load .relaxed 5]⟩, by decide, rfl, rfl, by decide⟩

/-- C8 (amended): when the owner bits read on entry equal the caller's
identifier (whatever the two flag bits are), `afl_mutex_owner_lock` and
`afl_spin_owner_lock` return `EDEADLOCK` after their load alone, and
`afl_mutex_pi_lock` returns `EDEADLOCK` after `__afl_gettid` and its load: no
write to the word, no futex call, and no system call at all except the one
`gettid` call that `__afl_gettid` makes when its cache is empty. -/
theorem already_owned_detection (K : PiKernel) (tp ktid w fuel : Nat) (m : PiMem)
    (hf : 2 ≤ fuel)
    (hown : w &&& AFL_TID_MASK = __afl_thread_pointer_tid tp)
    (hpi : m.word &&& AFL_TID_MASK = (__afl_gettid ktid m.tls).1) :
    exec (afl_mutex_owner_lock_step tp) fuel .load w
      = some ⟨EDEADLOCK, w, [.load .relaxed w]⟩ ∧
    exec (afl_spin_owner_lock_step tp) fuel .load w
      = some ⟨EDEADLOCK, w, [.load .relaxed w]⟩ ∧
    ∃ r : Res PiMem, exec (afl_mutex_pi_lock_step K ktid) fuel .gettid m = some r ∧
      r.ret = EDEADLOCK ∧ r.mem.word = m.word ∧
      r.log.filter Ev.isWrite = [] ∧ r.log.filter Ev.isFutex = [] ∧
      r.log.filter Ev.isSyscall = (if m.tls ≠ 0 then [] else [.gettid]) := by
  refine ⟨?_, ?_, ?_⟩
  · refine exec_of_le _ (Nat.le_trans (by decide : 1 ≤ 2) hf) ?_
    simp [exec, afl_mutex_owner_lock_step, hown]
  · refine exec_of_le _ (Nat.le_trans (by decide : 1 ≤ 2) hf) ?_
    simp [exec, afl_spin_owner_lock_step, hown]
  · refine ⟨⟨EDEADLOCK, ⟨m.word, (__afl_gettid ktid m.tls).2.1⟩,
      (__afl_gettid ktid m.tls).2.2 ++ [.load .relaxed m.word]⟩, ?_, rfl, rfl, ?_, ?_, ?_⟩
    · refine exec_of_le _ hf ?_
      simp [exec, afl_mutex_pi_lock_step, hpi]
    · unfold __afl_gettid; split <;> simp [Ev.isWrite]
    · unfold __afl_gettid; split <;> simp [Ev.isFutex]
    · unfold __afl_gettid; split <;> simp_all [Ev.isSyscall]

theorem already_owned_detection_witness :
    exec (afl_mutex_owner_lock_step 7) 2 .load (7 ||| AFL_HAVE_WAITERS)
      = some ⟨EDEADLOCK, 7 ||| AFL_HAVE_WAITERS, [.load .relaxed (7 ||| AFL_HAVE_WAITERS)]⟩ ∧
    exec (afl_spin_owner_lock_step 7) 2 .load (7 ||| AFL_HAVE_WAITERS)
      = some ⟨EDEADLOCK, 7 ||| AFL_HAVE_WAITERS, [.load .relaxed (7 ||| AFL_HAVE_WAITERS)]⟩ ∧
    ∃ r : Res PiMem, exec (afl_mutex_pi_lock_step pi_kernel_id 9) 2 .gettid ⟨9, 9⟩ = some r ∧
      r.ret = EDEADLOCK ∧ r.mem.word = 9 ∧
      r.log.filter Ev.isWrite = [] ∧ r.log.filter Ev.isFutex = [] ∧
      r.log.filter Ev.isSyscall = (if 9 ≠ 0 then [] else [.gettid]) :=
  already_owned_detection pi_kernel_id 7 9 (7 ||| AFL_HAVE_WAITERS) 2 ⟨9, 9⟩ (by decide)
    (by decide) (by decide)

/-- C9, counterexample: a thread whose `__afl_gettid` cache is still empty
calls `afl_mutex_pi_unlock` on a mutex owned by thread 5; the call returns
`EPERM` without writing the word, but it has issued the `gettid` system
call. -/
theorem non_owner_pi_unlock_issues_gettid :
    5 &&& AFL_TID_MASK ≠ (__afl_gettid 7 0).1 ∧
    ∃ r : Res PiMem, exec (afl_mutex_pi_unlock_step pi_kernel_id 7) 2 .gettid ⟨5, 0⟩ = some r ∧
      r.ret = EPERM ∧ r.mem.word = 5 ∧ r.log.filter Ev.isSyscall = [.gettid] :=
  ⟨by decide, ⟨EPERM, ⟨5, 7⟩, [.gettid, .load .relaxed 5]⟩, by decide, rfl, rfl, by decide⟩

/-- C9 (amended): when the owner bits read on entry differ from the caller's
identifier, `afl_mutex_owner_unlock`, `afl_spin_owner_unlock` and
`afl_mutex_recursive_unlock` return `EPERM` after their load alone (word and
count as they were, no system call), and `afl_mutex_pi_unlock` returns `EPERM`
after `__afl_gettid` and its load: no write to the word, no futex call, and no
system call at all except the one `gettid` call that `__afl_gettid` makes when
its cache is empty.  On the memory the rejected call leaves, the unlock by the
thread whose identifier is in the owner bits returns 0. -/
theorem non_owner_unlock_rejected (K : PiKernel) (SIZE_MAX tp tp' ktid ktid' tls' w c fuel : Nat)
    (m : PiMem) (hf : 4 ≤ fuel)
    (hno : w &&& AFL_TID_MASK ≠ __afl_thread_pointer_tid tp)
    (hown : w &&& AFL_TID_MASK = __afl_thread_pointer_tid tp')
    (hpno : m.word &&& AFL_TID_MASK ≠ (__afl_gettid ktid m.tls).1)
    (hpown : m.word &&& AFL_TID_MASK = (__afl_gettid ktid' tls').1) :
    (exec (afl_mutex_owner_unlock_step tp) fuel .load w = some ⟨EPERM, w, [.load .relaxed w]⟩ ∧
      ∃ r, exec (afl_mutex_owner_unlock_step tp') fuel .load w = some r ∧ r.ret = 0) ∧
    (exec (afl_spin_owner_unlock_step tp) fuel .load w = some ⟨EPERM, w, [.load .relaxed w]⟩ ∧
      ∃ r, exec (afl_spin_owner_unlock_step tp') fuel .load w = some r ∧ r.ret = 0) ∧
    (exec (afl_mutex_recursive_unlock_step SIZE_MAX tp) fuel .load ⟨w, c⟩
        = some ⟨EPERM, ⟨w, c⟩, [.load .relaxed w]⟩ ∧
      ∃ r, exec (afl_mutex_recursive_unlock_step SIZE_MAX tp') fuel .load ⟨w, c⟩ = some r ∧
        r.ret = 0) ∧
    (∃ r : Res PiMem, exec (afl_mutex_pi_unlock_step K ktid) fuel .gettid m = some r ∧
      r.ret = EPERM ∧ r.mem.word = m.word ∧
      r.log.filter Ev.isWrite = [] ∧ r.log.filter Ev.isFutex = [] ∧
      r.log.filter Ev.isSyscall = (if m.tls ≠ 0 then [] else [.gettid]) ∧
      ∃ r', exec (afl_mutex_pi_unlock_step K ktid') fuel .gettid ⟨r.mem.word, tls'⟩ = some r' ∧
        r'.ret = 0) := by
  have h1 : 1 ≤ fuel := Nat.le_trans (by decide : 1 ≤ 4) hf
  have h2 : 2 ≤ fuel := Nat.le_trans (by decide : 2 ≤ 4) hf
  have h3 : 3 ≤ fuel := Nat.le_trans (by decide : 3 ≤ 4) hf
  have hno' : ¬ __afl_thread_pointer_tid tp = w &&& AFL_TID_MASK := fun h => hno h.symm
  refine ⟨⟨?_, ?_⟩, ⟨?_, ?_⟩, ⟨?_, ?_⟩, ?_⟩
  · refine exec_of_le _ h1 ?_
    simp [exec, afl_mutex_owner_unlock_step, hno']
  · refine exec_returns_of_le h3 (exec_returns_of_step .xchg w
      (by simp [afl_mutex_owner_unlock_step, hown])
      (by simp [afl_mutex_owner_unlock_step, hown]) ?_)
    by_cases hW : w &&& AFL_HAVE_WAITERS = 0
    · exact exec_returns_of_ret _ (by simp [afl_mutex_owner_unlock_step, atomic_exchange, hW])
    · exact exec_returns_of_step .wake 0
        (by simp [afl_mutex_owner_unlock_step, atomic_exchange, hW])
        (by simp [afl_mutex_owner_unlock_step, atomic_exchange, hW, AFL_UNLOCKED])
        (exec_returns_of_ret _ (by rfl))
  · refine exec_of_le _ h1 ?_
    simp [exec, afl_spin_owner_unlock_step, hno']
  · exact exec_returns_of_le h2 (exec_returns_of_step .store w
      (by simp [afl_spin_owner_unlock_step, hown]) (by simp [afl_spin_owner_unlock_step, hown])
      (exec_returns_of_ret _ (by rfl)))
  · refine exec_of_le _ h1 ?_
    simp [exec, afl_mutex_recursive_unlock_step, hno']
  · refine exec_returns_of_le hf (exec_returns_of_step .dec (⟨w, c⟩)
      (by simp [afl_mutex_recursive_unlock_step, hown])
      (by simp [afl_mutex_recursive_unlock_step, hown]) ?_)
    by_cases hc : (c + SIZE_MAX) % (SIZE_MAX + 1) = 0
    · refine exec_returns_of_step .xchg (⟨w, 0⟩)
        (by simp [afl_mutex_recursive_unlock_step, hc])
        (by simp [afl_mutex_recursive_unlock_step, hc]) ?_
      by_cases hW : w &&& AFL_HAVE_WAITERS = 0
      · exact exec_returns_of_ret _ (by
          simp [afl_mutex_recursive_unlock_step, atomic_exchange, hW])
      · exact exec_returns_of_step .wake (⟨0, 0⟩)
          (by simp [afl_mutex_recursive_unlock_step, atomic_exchange, hW])
          (by simp [afl_mutex_recursive_unlock_step, atomic_exchange, hW, AFL_UNLOCKED])
          (exec_returns_of_ret _ (by rfl))
    · exact exec_returns_of_ret _ (by simp [afl_mutex_recursive_unlock_step, hc])
  · have hpno' : ¬ (__afl_gettid ktid m.tls).1 = m.word &&& AFL_TID_MASK := fun h => hpno h.symm
    refine ⟨⟨EPERM, ⟨m.word, (__afl_gettid ktid m.tls).2.1⟩,
      (__afl_gettid ktid m.tls).2.2 ++ [.load .relaxed m.word]⟩, ?_, rfl, rfl, ?_, ?_, ?_, ?_⟩
    · refine exec_of_le _ h2 ?_
      simp [exec, afl_mutex_pi_unlock_step, hpno']
    · unfold __afl_gettid; split <;> simp [Ev.isWrite]
    · unfold __afl_gettid; split <;> simp [Ev.isFutex]
    · unfold __afl_gettid; split <;> simp_all [Ev.isSyscall]
    · refine exec_returns_of_le hf (exec_returns_of_step
        (.load (__afl_gettid ktid' tls').1) (⟨m.word, (__afl_gettid ktid' tls').2.1⟩)
        (by simp [afl_mutex_pi_unlock_step]) (by simp [afl_mutex_pi_unlock_step]) ?_)
      refine exec_returns_of_step (.cas (__afl_gettid ktid' tls').1)
        (⟨m.word, (__afl_gettid ktid' tls').2.1⟩)
        (by simp [afl_mutex_pi_unlock_step, hpown])
        (by simp [afl_mutex_pi_unlock_step, hpown]) ?_
      by_cases he : m.word = (__afl_gettid ktid' tls').1
      · exact exec_returns_of_ret _ (by
          simp [afl_mutex_pi_unlock_step, atomic_compare_exchange, he])
      · exact exec_returns_of_step .unlock_pi
          (⟨m.word, (__afl_gettid ktid' tls').2.1⟩)
          (by simp [afl_mutex_pi_unlock_step, atomic_compare_exchange, he])
          (by simp [afl_mutex_pi_unlock_step, atomic_compare_exchange, he])
          (exec_returns_of_ret _ (by rfl))

theorem non_owner_unlock_rejected_witness :
    (exec (afl_mutex_owner_unlock_step 3) 4 .load (5 ||| AFL_HAVE_WAITERS)
        = some ⟨EPERM, 5 ||| AFL_HAVE_WAITERS, [.load .relaxed (5 ||| AFL_HAVE_WAITERS)]⟩ ∧
      ∃ r, exec (afl_mutex_owner_unlock_step 5) 4 .load (5 ||| AFL_HAVE_WAITERS) = some r ∧
        r.ret = 0) ∧
    (exec (afl_spin_owner_unlock_step 3) 4 .load (5 ||| AFL_HAVE_WAITERS)
        = some ⟨EPERM, 5 ||| AFL_HAVE_WAITERS, [.load .relaxed (5 ||| AFL_HAVE_WAITERS)]⟩ ∧
      ∃ r, exec (afl_spin_owner_unlock_step 5) 4 .load (5 ||| AFL_HAVE_WAITERS) = some r ∧
        r.ret = 0) ∧
    (exec (afl_mutex_recursive_unlock_step (2 ^ 64 - 1) 3) 4 .load ⟨5 ||| AFL_HAVE_WAITERS, 2⟩
        = some ⟨EPERM, ⟨5 ||| AFL_HAVE_WAITERS, 2⟩, [.load .relaxed (5 ||| AFL_HAVE_WAITERS)]⟩ ∧
      ∃ r, exec (afl_mutex_recursive_unlock_step (2 ^ 64 - 1) 5) 4 .load
          ⟨5 ||| AFL_HAVE_WAITERS, 2⟩ = some r ∧ r.ret = 0) ∧
    (∃ r : Res PiMem, exec (afl_mutex_pi_unlock_step pi_kernel_id 7) 4 .gettid ⟨5, 7⟩ = some r ∧
      r.ret = EPERM ∧ r.mem.word = 5 ∧
      r.log.filter Ev.isWrite = [] ∧ r.log.filter Ev.isFutex = [] ∧
      r.log.filter Ev.isSyscall = (if 7 ≠ 0 then [] else [.gettid]) ∧
      ∃ r', exec (afl_mutex_pi_unlock_step pi_kernel_id 5) 4 .gettid ⟨r.mem.word, 5⟩ = some r' ∧
        r'.ret = 0) :=
  non_owner_unlock_rejected pi_kernel_id (2 ^ 64 - 1) 3 5 7 5 5 (5 ||| AFL_HAVE_WAITERS) 2 4
    ⟨5, 7⟩ (by decide) (by decide) (by decide) (by decide) (by decide)

/-! ### Recursive mutex -/

/-- C10: `afl_mutex_recursive_lock` called by the thread whose non-zero
identifier is in the owner bits returns `EAGAIN` after its load alone when
`count` is `SIZE_MAX` (lock word and count unchanged), and for every smaller
count returns 0 after writing `count + 1` to the count, without writing the
lock word. -/
theorem recursive_reentry_overflow (SIZE_MAX tp fuel : Nat) (m : RecMutex) (hf : 2 ≤ fuel)
    (hid : __afl_thread_pointer_tid tp ≠ 0)
    (hown : m.lock &&& AFL_TID_MASK = __afl_thread_pointer_tid tp) :
    (m.count = SIZE_MAX →
      exec (afl_mutex_recursive_lock_step SIZE_MAX tp) fuel .load m
        = some ⟨EAGAIN, m, [.load .relaxed m.lock]⟩) ∧
    (m.count < SIZE_MAX →
      exec (afl_mutex_recursive_lock_step SIZE_MAX tp) fuel .load m
        = some ⟨0, ⟨m.lock, m.count + 1⟩,
            [.load .relaxed m.lock, .count_write (m.count + 1)]⟩) := by
  have hl : m.lock ≠ 0 := by
    intro h0
    rw [h0, Nat.zero_and] at hown
    exact hid hown.symm
  constructor
  · intro he
    refine exec_of_le _ hf ?_
    have hmod : (SIZE_MAX + 1) % (SIZE_MAX + 1) = 0 := Nat.mod_self _
    simp [exec, afl_mutex_recursive_lock_step, hl, hown, he, hmod]
  · intro hlt
    refine exec_of_le _ hf ?_
    have hmod : (m.count + 1) % (SIZE_MAX + 1) = m.count + 1 := Nat.mod_eq_of_lt (by omega)
    simp [exec, afl_mutex_recursive_lock_step, hl, hown, hmod]

theorem recursive_reentry_overflow_witness :
    exec (afl_mutex_recursive_lock_step (2 ^ 64 - 1) 5) 2 .load ⟨5 ||| AFL_HAVE_WAITERS, 2 ^ 64 - 1⟩
        = some ⟨EAGAIN, ⟨5 ||| AFL_HAVE_WAITERS, 2 ^ 64 - 1⟩,
            [.load .relaxed (5 ||| AFL_HAVE_WAITERS)]⟩ ∧
    exec (afl_mutex_recursive_lock_step (2 ^ 64 - 1) 5) 2 .load ⟨5, 3⟩
        = some ⟨0, ⟨5, 4⟩, [.load .relaxed 5, .count_write 4]⟩ :=
  ⟨(recursive_reentry_overflow (2 ^ 64 - 1) 5 2 ⟨5 ||| AFL_HAVE_WAITERS, 2 ^ 64 - 1⟩ (by decide)
      (by decide) (by decide)).1 rfl,
   (recursive_reentry_overflow (2 ^ 64 - 1) 5 2 ⟨5, 3⟩ (by decide)
      (by decide) (by decide)).2 (by decide)⟩

theorem rec_lock_at_depth (SIZE_MAX tp fuel d : Nat) (hf : 3 ≤ fuel)
    (ht : __afl_thread_pointer_tid tp ≠ 0) (hd : d < SIZE_MAX) :
    ∃ r, rec_call SIZE_MAX tp fuel .lock ⟨if d = 0 then 0 else __afl_thread_pointer_tid tp, d⟩
        = some r ∧ r.ret = 0 ∧ r.mem = ⟨__afl_thread_pointer_tid tp, d + 1⟩ := by
  unfold rec_call
  by_cases h0 : d = 0
  · subst h0
    refine exec_result_of_le hf (exec_result_of_step .cas ⟨0, 0⟩
      (by simp [afl_mutex_recursive_lock_step]) (by simp [afl_mutex_recursive_lock_step]) ?_)
    refine exec_result_of_step .success ⟨__afl_thread_pointer_tid tp, 0⟩
      (by simp [afl_mutex_recursive_lock_step, atomic_compare_exchange])
      (by simp [afl_mutex_recursive_lock_step, atomic_compare_exchange]) ?_
    exact exec_result_of_ret _ (by simp [afl_mutex_recursive_lock_step])
      (by simp [afl_mutex_recursive_lock_step])
  · have hmod : (d + 1) % (SIZE_MAX + 1) = d + 1 := Nat.mod_eq_of_lt (by omega)
    refine exec_result_of_le (Nat.le_trans (by decide : 2 ≤ 3) hf)
      (exec_result_of_step .reenter ⟨__afl_thread_pointer_tid tp, d⟩
        (by simp [afl_mutex_recursive_lock_step, h0, ht, tid_and_mask])
        (by simp [afl_mutex_recursive_lock_step, h0, ht, tid_and_mask]) ?_)
    exact exec_result_of_ret _ (by simp [afl_mutex_recursive_lock_step, hmod])
      (by simp [afl_mutex_recursive_lock_step, hmod])

theorem rec_unlock_at_depth (SIZE_MAX tp fuel d : Nat) (hf : 3 ≤ fuel) (hd : d < SIZE_MAX) :
    ∃ r, rec_call SIZE_MAX tp fuel .unlock ⟨__afl_thread_pointer_tid tp, d + 1⟩
        = some r ∧ r.ret = 0 ∧
          r.mem = ⟨if d = 0 then 0 else __afl_thread_pointer_tid tp, d⟩ := by
  unfold rec_call
  have hmod : (d + 1 + SIZE_MAX) % (SIZE_MAX + 1) = d := by
    rw [show d + 1 + SIZE_MAX = d + (SIZE_MAX + 1) by omega, Nat.add_mod_right]
    exact Nat.mod_eq_of_lt (by omega)
  refine exec_result_of_le hf (exec_result_of_step .dec ⟨__afl_thread_pointer_tid tp, d + 1⟩
    (by simp [afl_mutex_recursive_unlock_step, tid_and_mask])
    (by simp [afl_mutex_recursive_unlock_step, tid_and_mask]) ?_)
  by_cases h0 : d = 0
  · subst h0
    have hmod0 : (1 + SIZE_MAX) % (SIZE_MAX + 1) = 0 := by simpa using hmod
    refine exec_result_of_step .xchg ⟨__afl_thread_pointer_tid tp, 0⟩
      (by simp [afl_mutex_recursive_unlock_step, hmod0])
      (by simp [afl_mutex_recursive_unlock_step, hmod0]) ?_
    exact exec_result_of_ret _
      (by simp [afl_mutex_recursive_unlock_step, atomic_exchange, tid_and_waiters])
      (by simp [afl_mutex_recursive_unlock_step, atomic_exchange, tid_and_waiters, AFL_UNLOCKED])
  · exact exec_result_of_ret _ (by simp [afl_mutex_recursive_unlock_step, hmod, h0])
      (by simp [afl_mutex_recursive_unlock_step, hmod, h0])

theorem rec_calls_from_depth (SIZE_MAX tp fuel : Nat) (hf : 3 ≤ fuel)
    (ht : __afl_thread_pointer_tid tp ≠ 0) :
    ∀ (ops : List RecOp) (d : Nat),
      (∀ p, p <+: ops → unlocks p ≤ d + locks p ∧ d + locks p - unlocks p < SIZE_MAX) →
      rec_calls SIZE_MAX tp fuel ops ⟨if d = 0 then 0 else __afl_thread_pointer_tid tp, d⟩
        = some (List.replicate ops.length 0,
            ⟨if d + locks ops - unlocks ops = 0 then 0 else __afl_thread_pointer_tid tp,
              d + locks ops - unlocks ops⟩) := by
  intro ops
  induction ops with
  | nil => intro d _; simp [rec_calls, locks, unlocks]
  | cons op rest ih =>
    intro d h
    have hnil := h [] List.nil_prefix
    simp [locks, unlocks] at hnil
    have hone := h [op] (by simp)
    cases op with
    | lock =>
      simp [locks, unlocks] at hone
      obtain ⟨r, hr, hv, hm⟩ := rec_lock_at_depth SIZE_MAX tp fuel d hf ht hnil
      have hrest := ih (d + 1) (by
        intro p hp
        have := h (.lock :: p) (by simpa using hp)
        simp [locks, unlocks] at this ⊢
        omega)
      simp only [rec_calls, hr, hm, hv]
      simp only [Nat.add_one_ne_zero, if_false] at hrest
      rw [hrest]
      simp [locks, unlocks, List.replicate_succ]
      have : d + (List.count RecOp.lock rest + 1) = d + 1 + List.count RecOp.lock rest := by
        omega
      rw [this]
      simp
    | unlock =>
      simp [locks, unlocks] at hone
      obtain ⟨d', rfl⟩ : ∃ d', d = d' + 1 := ⟨d - 1, by omega⟩
      obtain ⟨r, hr, hv, hm⟩ := rec_unlock_at_depth SIZE_MAX tp fuel d' hf (by omega)
      have hrest := ih d' (by
        intro p hp
        have := h (.unlock :: p) (by simpa using hp)
        simp [locks, unlocks] at this ⊢
        omega)
      simp only [Nat.add_one_ne_zero, if_false]
      simp only [rec_calls, hr, hm, hv]
      rw [hrest]
      simp [locks, unlocks, List.replicate_succ]
      have : d' + 1 + List.count RecOp.lock rest - (List.count RecOp.unlock rest + 1)
          = d' + List.count RecOp.lock rest - List.count RecOp.unlock rest := by omega
      rw [this]
      simp

theorem wellNested_nest (SIZE_MAX N : Nat) (hN : N < SIZE_MAX) :
    WellNested SIZE_MAX (List.replicate N RecOp.lock ++ List.replicate N RecOp.unlock) := by
  intro p hp
  rw [List.prefix_iff_eq_take] at hp
  rw [hp]
  simp only [locks, unlocks, List.take_append_eq_append_take, List.take_replicate,
    List.count_append, List.count_replicate, List.length_replicate]
  simp
  omega

/-- C7: for a single thread with a non-zero identifier and a well-nested
sequence of `afl_mutex_recursive_lock` / `afl_mutex_recursive_unlock` calls
(depth below `SIZE_MAX`) on a freshly initialised recursive mutex, after every
prefix all calls have returned 0, `count` is the number of outstanding
acquisitions, the lock word is the identifier while that number is positive
and 0 when it is zero; `N` nested locks followed by `N` unlocks end in lock
word 0 and count 0. -/
theorem recursive_mutex_balance (SIZE_MAX tp fuel : Nat) (m0 : RecMutex) (ops : List RecOp)
    (hf : 3 ≤ fuel) (ht : __afl_thread_pointer_tid tp ≠ 0) (hw : WellNested SIZE_MAX ops) :
    (∀ p, p <+: ops →
      ∃ m, rec_calls SIZE_MAX tp fuel p (afl_mutex_recursive_init m0)
          = some (List.replicate p.length 0, m) ∧
        m.count = locks p - unlocks p ∧
        (0 < locks p - unlocks p → m.lock = __afl_thread_pointer_tid tp) ∧
        (locks p - unlocks p = 0 → m.lock = 0 ∧ m.count = 0)) ∧
    (∀ N, N < SIZE_MAX →
      rec_calls SIZE_MAX tp fuel (List.replicate N .lock ++ List.replicate N .unlock)
          (afl_mutex_recursive_init m0)
        = some (List.replicate (N + N) 0, ⟨0, 0⟩)) := by
  have key : ∀ q : List RecOp, WellNested SIZE_MAX q →
      rec_calls SIZE_MAX tp fuel q (afl_mutex_recursive_init m0)
        = some (List.replicate q.length 0,
            ⟨if locks q - unlocks q = 0 then 0 else __afl_thread_pointer_tid tp,
              locks q - unlocks q⟩) := by
    intro q hq
    have := rec_calls_from_depth SIZE_MAX tp fuel hf ht q 0 (by
      intro p hp
      have := hq p hp
      omega)
    simpa [afl_mutex_recursive_init, AFL_UNLOCKED] using this
  constructor
  · intro p hp
    have hwp : WellNested SIZE_MAX p := fun q hq => hw q (List.IsPrefix.trans hq hp)
    refine ⟨_, key p hwp, rfl, ?_, ?_⟩
    · intro h; simp; omega
    · intro h; simp [h]
  · intro N hN
    have := key _ (wellNested_nest SIZE_MAX N hN)
    simpa [locks, unlocks, List.count_append, List.count_replicate] using this

theorem recursive_mutex_balance_witness :
    (∀ p, p <+: [RecOp.lock, .lock, .unlock, .lock, .unlock, .unlock] →
      ∃ m, rec_calls (2 ^ 64 - 1) 5 3 p (afl_mutex_recursive_init ⟨9, 9⟩)
          = some (List.replicate p.length 0, m) ∧
        m.count = locks p - unlocks p ∧
        (0 < locks p - unlocks p → m.lock = __afl_thread_pointer_tid 5) ∧
        (locks p - unlocks p = 0 → m.lock = 0 ∧ m.count = 0)) ∧
    (∀ N, N < 2 ^ 64 - 1 →
      rec_calls (2 ^ 64 - 1) 5 3 (List.replicate N .lock ++ List.replicate N .unlock)
          (afl_mutex_recursive_init ⟨9, 9⟩)
        = some (List.replicate (N + N) 0, ⟨0, 0⟩)) :=
  recursive_mutex_balance (2 ^ 64 - 1) 5 3 ⟨9, 9⟩ [.lock, .lock, .unlock, .lock, .unlock, .unlock]
    (by decide) (by decide) (by
      intro p hp
      have hlen : p.length ≤ 6 := by simpa using hp.length_le
      rw [List.prefix_iff_eq_take] at hp
      rw [hp]
      generalize p.length = k at hlen
      interval_cases k <;> simp [locks, unlocks])

/-! ### Concurrent behaviour -/

/-- C1: the anonymous mutex does not exclude.  On the schedule `mutex_race`
thread 1 returns from `afl_mutex_lock` without any of its atomic operations
having replaced 0 by a locked value (its second compare-exchange fails on the
word 0 and this ends the loop of line 339), and thread 0 then acquires the
free mutex: both have returned from `afl_mutex_lock` and neither has called
`afl_mutex_unlock`. -/
theorem mutex_mutual_exclusion_violated :
    (run mutex_step (mutex_init Nat) mutex_race).th 0 = .locked ∧
    (run mutex_step (mutex_init Nat) mutex_race).th 1 = .locked ∧
    (run mutex_step (mutex_init Nat) mutex_race).mem = AFL_LOCKED ∧
    (run mutex_step (mutex_init Nat) mutex_race).log.filter (fun e => e.1 = 1) =
      [(1, .load .relaxed 1), (1, .cas .acquire .relaxed 0 1 1),
       (1, .cas .acquire .relaxed 1 (AFL_LOCKED ||| AFL_HAVE_WAITERS) 0)] := by
  decide

theorem spin_inv_step {τ : Type} [DecidableEq τ] (s : Sys τ SpinThread Nat) (t : τ)
    (h : SpinInv s) : SpinInv (spin_step s t) := by
  unfold spin_step
  cases hth : s.th t with
  | idle =>
    rcases h with ⟨hm, hn⟩ | ⟨hm, hu⟩
    · left
      refine ⟨hm, fun t' => ?_⟩
      by_cases ht : t' = t
      · subst ht; simp [SpinThread.holds]
      · simpa [Function.update_noteq ht] using hn t'
    · right
      refine ⟨hm, fun a b ha hb => ?_⟩
      by_cases hat : a = t
      · subst hat; simp [SpinThread.holds] at ha
      · by_cases hbt : b = t
        · subst hbt; simp [SpinThread.holds] at hb
        · simp only [Function.update_noteq hat, Function.update_noteq hbt] at ha hb
          exact hu a b ha hb
  | in_lock pc =>
    rcases h with ⟨hm, hn⟩ | ⟨hm, hu⟩
    · right
      refine ⟨by
        cases pc <;>
          simp [afl_spin_lock_step, atomic_exchange, AFL_LOCKED, AFL_UNLOCKED, hm], ?_⟩
      intro a b ha hb
      by_cases hat : a = t
      · by_cases hbt : b = t
        · rw [hat, hbt]
        · simp only [Function.update_noteq hbt] at hb
          rw [hn b] at hb; cases hb
      · simp only [Function.update_noteq hat] at ha
        rw [hn a] at ha; cases ha
    · right
      refine ⟨by
        cases pc <;>
          simp [afl_spin_lock_step, atomic_exchange, AFL_LOCKED, AFL_UNLOCKED, hm], ?_⟩
      intro a b ha hb
      have hnot : ∀ c, c = t → ¬ ((Function.update s.th t
          (match (afl_spin_lock_step pc s.mem).ctl with
           | .goto pc' => SpinThread.in_lock pc'
           | .ret _ => SpinThread.locked)) c).holds = true := by
        intro c hc
        subst hc
        cases pc <;>
          simp [afl_spin_lock_step, atomic_exchange, hm, AFL_UNLOCKED, SpinThread.holds]
      by_cases hat : a = t
      · exact absurd ha (hnot a hat)
      · by_cases hbt : b = t
        · exact absurd hb (hnot b hbt)
        · simp only [Function.update_noteq hat, Function.update_noteq hbt] at ha hb
          exact hu a b ha hb
  | locked =>
    have hh : (s.th t).holds = true := by rw [hth]; rfl
    rcases h with ⟨hm, hn⟩ | ⟨hm, hu⟩
    · rw [hn t] at hh; cases hh
    · right
      refine ⟨hm, fun a b ha hb => ?_⟩
      have ha' : (s.th a).holds = true := by
        by_cases hat : a = t
        · rw [hat]; exact hh
        · simpa [Function.update_noteq hat] using ha
      have hb' : (s.th b).holds = true := by
        by_cases hbt : b = t
        · rw [hbt]; exact hh
        · simpa [Function.update_noteq hbt] using hb
      exact hu a b ha' hb'
  | in_unlock pc =>
    have hh : (s.th t).holds = true := by rw [hth]; rfl
    rcases h with ⟨hm, hn⟩ | ⟨hm, hu⟩
    · rw [hn t] at hh; cases hh
    · left
      cases pc
      refine ⟨by simp [afl_spin_unlock_step, AFL_UNLOCKED], fun a => ?_⟩
      by_cases hat : a = t
      · subst hat; simp [afl_spin_unlock_step, SpinThread.holds]
      · simp only [Function.update_noteq hat]
        cases hha : (s.th a).holds with
        | false => rfl
        | true => exact absurd (hu a t hha hh) hat

/-- C2: in every state that a schedule of threads doing
`afl_spin_lock; afl_spin_unlock` reaches from the spinlock 0, at most one
thread has returned from `afl_spin_lock` without having called
`afl_spin_unlock`; and a step makes `afl_spin_lock` return to thread `t` only
if it is an exchange by `t` that observed `AFL_UNLOCKED` and stored
`AFL_LOCKED`. -/
theorem spin_mutual_exclusion {τ : Type} [DecidableEq τ] (sched : List τ) :
    (∀ t t', (run spin_step (spin_init τ) sched).th t = .locked →
      (run spin_step (spin_init τ) sched).th t' = .locked → t = t') ∧
    (∀ t, (run spin_step (spin_init τ) sched).th t ≠ .locked →
      (spin_step (run spin_step (spin_init τ) sched) t).th t = .locked →
      (∃ pc, (run spin_step (spin_init τ) sched).th t = .in_lock pc) ∧
      (run spin_step (spin_init τ) sched).mem = AFL_UNLOCKED ∧
      (spin_step (run spin_step (spin_init τ) sched) t).mem = AFL_LOCKED ∧
      ∃ evs, (spin_step (run spin_step (spin_init τ) sched) t).log
          = (run spin_step (spin_init τ) sched).log ++ evs ∧
        (t, Ev.xchg .acquire AFL_LOCKED AFL_UNLOCKED) ∈ evs) := by
  have hinv : SpinInv (run spin_step (spin_init τ) sched) :=
    run_invariant spin_step SpinInv spin_inv_step sched _ (Or.inl ⟨rfl, fun _ => rfl⟩)
  generalize run spin_step (spin_init τ) sched = s at hinv
  constructor
  · intro t t' ht ht'
    rcases hinv with ⟨_, hn⟩ | ⟨_, hu⟩
    · have := hn t; rw [ht] at this; cases this
    · exact hu t t' (by rw [ht]; rfl) (by rw [ht']; rfl)
  · intro t hne hstep
    unfold spin_step at hstep ⊢
    cases hth : s.th t with
    | idle => simp [hth] at hstep
    | locked => exact absurd hth hne
    | in_unlock pc => cases pc; simp [hth, afl_spin_unlock_step] at hstep
    | in_lock pc =>
      refine ⟨⟨pc, rfl⟩, ?_⟩
      simp only [hth] at hstep ⊢
      cases pc with
      | first =>
        by_cases h0 : s.mem = 0
        · simp [afl_spin_lock_step, atomic_exchange, h0, AFL_UNLOCKED, AFL_LOCKED]
        · simp [afl_spin_lock_step, atomic_exchange, h0] at hstep
      | loop =>
        by_cases h0 : s.mem = 0
        · simp [afl_spin_lock_step, atomic_exchange, h0, AFL_UNLOCKED, AFL_LOCKED]
        · simp [afl_spin_lock_step, atomic_exchange, h0, AFL_UNLOCKED] at hstep

theorem update_all {τ T : Type} [DecidableEq τ] (p : T → Bool) {f : τ → T} {t : τ} {x : T}
    (hx : p x = true) (hf : ∀ a, a ≠ t → p (f a) = true) :
    ∀ a, p (Function.update f t x a) = true := by
  intro a
  by_cases h : a = t
  · subst h; simpa using hx
  · simpa [Function.update_noteq h] using hf a h

theorem update_all_ne {τ T : Type} [DecidableEq τ] (p : T → Bool) {f : τ → T} {t t0 : τ}
    {x : T} (hx : t ≠ t0 → p x = true) (hf : ∀ a, a ≠ t0 → p (f a) = true) :
    ∀ a, a ≠ t0 → p (Function.update f t x a) = true := by
  intro a ha
  by_cases h : a = t
  · subst h; simpa using hx ha
  · simpa [Function.update_noteq h] using hf a ha

theorem quiet_settled (th : OnceThread) (h : th.quiet = true) : th.settled = true := by
  cases th with
  | idle => rfl
  | returned v => simp [OnceThread.quiet] at h
  | in_once pc => cases pc <;> simp_all [OnceThread.quiet, OnceThread.settled]

theorem once_inv_call {τ : Type} [DecidableEq τ] (s : Sys τ OnceThread Nat) (t : τ)
    (hth : (s.th t).settled = true) (h : OnceInv s) :
    OnceInv { s with th := Function.update s.th t (.in_once .load) } := by
  rcases h with ⟨hm, hc, hr, hq⟩ | ⟨t0, hm, hq, h0⟩ | ⟨hm, hc, hr, hs⟩
  · exact Or.inl ⟨hm, hc, hr, update_all OnceThread.quiet rfl (fun a _ => hq a)⟩
  · refine Or.inr (Or.inl ⟨t0, hm, update_all_ne OnceThread.quiet (fun _ => rfl) hq, ?_⟩)
    have hne : t0 ≠ t := by
      intro he
      subst he
      rcases h0 with ⟨h, _⟩ | ⟨h, _⟩ | ⟨h, _⟩ <;> rw [h] at hth <;>
        simp [OnceThread.settled, OnceThread.quiet] at hth
    simpa [Function.update_noteq hne, init_calls, init_returns] using h0
  · exact Or.inr (Or.inr ⟨hm, hc, hr, update_all OnceThread.settled rfl (fun a _ => hs a)⟩)

theorem once_inv_in_once {τ : Type} [DecidableEq τ] (s : Sys τ OnceThread Nat) (t : τ)
    (pc : OncePc) (hth : s.th t = .in_once pc) (h : OnceInv s) :
    OnceInv
      { mem := (afl_once_step pc s.mem).mem
        th := Function.update s.th t
          (match (afl_once_step pc s.mem).ctl with
           | .goto pc' => .in_once pc'
           | .ret v => .returned v)
        log := s.log ++ (afl_once_step pc s.mem).ev.map (fun e => (t, e)) } := by
  rcases h with ⟨hm, hc, hr, hq⟩ | ⟨t0, hm, hq, h0⟩ | ⟨hm, hc, hr, hs⟩
  · -- nothing has happened yet
    have hqt := hq t
    rw [hth] at hqt
    simp only [init_calls, init_returns] at hc hr
    cases pc <;> simp [OnceThread.quiet] at hqt
    case try_lock =>
      refine Or.inr (Or.inl ⟨t, ?_, ?_, Or.inl ⟨?_, ?_, ?_⟩⟩)
      · simp [afl_once_step, atomic_compare_exchange, hm, AFL_UNLOCKED]
      · exact update_all_ne OnceThread.quiet (fun h => absurd rfl h) (fun a _ => hq a)
      · simp [afl_once_step, atomic_compare_exchange, hm, AFL_UNLOCKED]
      · simp [afl_once_step, atomic_compare_exchange, hm, AFL_UNLOCKED, init_calls,
          List.countP_append, hc]
      · simp [afl_once_step, atomic_compare_exchange, hm, AFL_UNLOCKED, init_returns,
          List.countP_append, hr]
    all_goals
      refine Or.inl ⟨?_, ?_, ?_, update_all OnceThread.quiet ?_ (fun a _ => hq a)⟩ <;>
        simp [afl_once_step, atomic_compare_exchange, hm, AFL_UNLOCKED, AFL_LOCKED,
          AFL_HAVE_WAITERS, AFL_SUCCESS, init_calls, init_returns, List.countP_append, hc, hr,
          OnceThread.quiet]
  · -- one thread has won the compare-exchange
    simp only [init_calls, init_returns] at h0
    by_cases ht : t = t0
    · subst ht
      rw [hth] at h0
      rcases h0 with ⟨hp, hc, hr⟩ | ⟨hp, hc, hr⟩ | ⟨hp, hc, hr⟩
      · cases hp
        refine Or.inr (Or.inl ⟨t, ?_, ?_, Or.inr (Or.inl ⟨?_, ?_, ?_⟩)⟩)
        · simpa [afl_once_step] using hm
        · exact update_all_ne OnceThread.quiet (fun h => absurd rfl h) hq
        · simp [afl_once_step]
        · simp [afl_once_step, init_calls, List.countP_append, hc]
        · simp [afl_once_step, init_returns, List.countP_append, hr]
      · cases hp
        refine Or.inr (Or.inl ⟨t, ?_, ?_, Or.inr (Or.inr ⟨?_, ?_, ?_⟩)⟩)
        · simpa [afl_once_step] using hm
        · exact update_all_ne OnceThread.quiet (fun h => absurd rfl h) hq
        · simp [afl_once_step]
        · simp [afl_once_step, init_calls, List.countP_append, hc]
        · simp [afl_once_step, init_returns, List.countP_append, hr]
      · cases hp
        refine Or.inr (Or.inr ⟨?_, ?_, ?_,
          update_all OnceThread.settled ?_ (fun a ha => quiet_settled _ (hq a ha))⟩)
        · simp [afl_once_step, atomic_exchange]
          split <;> rfl
        · simp [afl_once_step, atomic_exchange, init_calls, List.countP_append, hc]
          split <;> simp
        · simp [afl_once_step, atomic_exchange, init_returns, List.countP_append, hr]
          split <;> simp
        · by_cases hW : s.mem &&& AFL_HAVE_WAITERS = 0 <;>
            simp [afl_once_step, atomic_exchange, hW, OnceThread.settled]
    · have hqt := hq t ht
      rw [hth] at hqt
      have hne : t0 ≠ t := fun h => ht h.symm
      cases pc <;> simp [OnceThread.quiet] at hqt
      all_goals
        refine Or.inr (Or.inl ⟨t0, ?_, update_all_ne OnceThread.quiet (fun _ => ?_) hq, ?_⟩)
      all_goals
        first
        | (rcases hm with hm | hm <;> rw [hm] <;>
             simp [afl_once_step, atomic_compare_exchange, AFL_UNLOCKED, AFL_LOCKED,
               AFL_HAVE_WAITERS, AFL_SUCCESS, locked_waiters_and_success, OnceThread.quiet] <;>
             done)
        | (simp only [Function.update_noteq hne]
           rcases hm with hm | hm <;> rw [hm] <;>
             simpa [afl_once_step, atomic_compare_exchange, AFL_UNLOCKED, AFL_LOCKED,
               AFL_HAVE_WAITERS, AFL_SUCCESS, init_calls, init_returns, List.countP_append,
               locked_waiters_and_success]
               using h0)
  · -- the word is `AFL_SUCCESS`
    have hst := hs t
    rw [hth] at hst
    simp only [init_calls, init_returns] at hc hr
    cases pc <;> simp [OnceThread.settled, OnceThread.quiet] at hst
    all_goals
      refine Or.inr (Or.inr ⟨?_, ?_, ?_,
        update_all OnceThread.settled ?_ (fun a _ => hs a)⟩) <;>
        simp [afl_once_step, atomic_compare_exchange, hm, AFL_UNLOCKED, AFL_LOCKED,
          AFL_HAVE_WAITERS, AFL_SUCCESS, init_calls, init_returns, List.countP_append, hc, hr,
          OnceThread.settled, OnceThread.quiet, success_and_waiters]


theorem once_inv_step {τ : Type} [DecidableEq τ] (s : Sys τ OnceThread Nat) (t : τ)
    (h : OnceInv s) : OnceInv (once_step s t) := by
  have hsettled : ∀ th, s.th t = th → (th = .idle ∨ ∃ v, th = .returned v) →
      (s.th t).settled = true := by
    intro th hth hcase
    rcases h with ⟨_, _, _, hq⟩ | ⟨t0, _, hq, h0⟩ | ⟨_, _, _, hs⟩
    · exact quiet_settled _ (hq t)
    · by_cases ht : t = t0
      · subst ht
        rcases hcase with rfl | ⟨v, rfl⟩ <;>
          rcases h0 with ⟨h, _⟩ | ⟨h, _⟩ | ⟨h, _⟩ <;> rw [h] at hth <;> cases hth
      · exact quiet_settled _ (hq t ht)
    · exact hs t
  unfold once_step
  cases hth : s.th t with
  | idle => exact once_inv_call s t (hsettled _ hth (Or.inl rfl)) h
  | returned v => exact once_inv_call s t (hsettled _ hth (Or.inr ⟨v, rfl⟩)) h
  | in_once pc => exact once_inv_in_once s t pc hth h

/-- C4: in every state that a schedule of `afl_once` calls by any threads
reaches from the once word 0 (the initializer does not touch the word), the
initializer has been invoked at most once, and whenever a thread's call has
returned, it has returned 0 and the single invocation of the initializer has
already returned. -/
theorem once_exactness {τ : Type} [DecidableEq τ] (sched : List τ) :
    init_calls (run once_step (once_init τ) sched) ≤ 1 ∧
    ∀ t v, (run once_step (once_init τ) sched).th t = .returned v →
      v = 0 ∧ init_calls (run once_step (once_init τ) sched) = 1 ∧
      init_returns (run once_step (once_init τ) sched) = 1 := by
  have hinv : OnceInv (run once_step (once_init τ) sched) :=
    run_invariant once_step OnceInv once_inv_step sched _
      (Or.inl ⟨rfl, rfl, rfl, fun _ => rfl⟩)
  generalize run once_step (once_init τ) sched = s at hinv
  rcases hinv with ⟨_, hc, _, hq⟩ | ⟨t0, _, hq, h0⟩ | ⟨_, hc, hr, hs⟩
  · refine ⟨by omega, fun t v ht => ?_⟩
    have := hq t
    rw [ht] at this
    cases this
  · refine ⟨by rcases h0 with ⟨_, h, _⟩ | ⟨_, h, _⟩ | ⟨_, h, _⟩ <;> omega, fun t v ht => ?_⟩
    by_cases htt : t = t0
    · subst htt
      rcases h0 with ⟨h, _⟩ | ⟨h, _⟩ | ⟨h, _⟩ <;> rw [h] at ht <;> cases ht
    · have := hq t htt
      rw [ht] at this
      cases this
  · refine ⟨by omega, fun t v ht => ⟨?_, hc, hr⟩⟩
    have := hs t
    rw [ht] at this
    simpa [OnceThread.settled] using this

/-! ### Owner-tracked mutex -/

theorem owner_inv_frame {τ : Type} [DecidableEq τ] (tp : τ → Nat) (s : Sys τ OwnerThread Nat)
    (t : τ) (x : OwnerThread) (mem' : Nat) (log' : List (τ × Ev)) (h : OwnerInv tp s)
    (hm : mem' &&& AFL_TID_MASK = s.mem &&& AFL_TID_MASK) (hx : x.held = (s.th t).held)
    (hp : x.phase = .in_unlock .xchg → x.held = true) :
    OwnerInv tp ⟨mem', Function.update s.th t x, log'⟩ := by
  obtain ⟨h1, h2⟩ := h
  refine ⟨fun a => ?_, ?_⟩
  · by_cases ha : a = t
    · subst ha; simpa using hp
    · simpa [Function.update_noteq ha] using h1 a
  · rcases h2 with ⟨h0, hn⟩ | ⟨t0, hh, hb, hn⟩
    · refine Or.inl ⟨by rw [hm]; exact h0, fun a => ?_⟩
      by_cases ha : a = t
      · subst ha; simpa [hx] using hn a
      · simpa [Function.update_noteq ha] using hn a
    · refine Or.inr ⟨t0, ?_, by rw [hm]; exact hb, fun a hne => ?_⟩
      · by_cases ha : t0 = t
        · subst ha; simpa [hx] using hh
        · simpa [Function.update_noteq ha] using hh
      · by_cases ha : a = t
        · subst ha; simpa [hx] using hn a hne
        · simpa [Function.update_noteq ha] using hn a hne

theorem owner_inv_acquire {τ : Type} [DecidableEq τ] (tp : τ → Nat)
    (hnz : ∀ t, __afl_thread_pointer_tid (tp t) ≠ 0) (s : Sys τ OwnerThread Nat)
    (t : τ) (x : OwnerThread) (mem' : Nat) (log' : List (τ × Ev)) (h : OwnerInv tp s)
    (h0 : s.mem &&& AFL_TID_MASK = 0)
    (hm : mem' &&& AFL_TID_MASK = __afl_thread_pointer_tid (tp t)) (hx : x.held = true) :
    OwnerInv tp ⟨mem', Function.update s.th t x, log'⟩ := by
  obtain ⟨h1, h2⟩ := h
  have hn : ∀ a, (s.th a).held = false := by
    rcases h2 with ⟨_, hn⟩ | ⟨t0, _, hb, _⟩
    · exact hn
    · exact absurd (hb.symm.trans h0) (hnz t0)
  refine ⟨fun a => ?_, Or.inr ⟨t, by simpa using hx, hm, fun a ha => ?_⟩⟩
  · by_cases ha : a = t
    · subst ha; simpa using fun _ => hx
    · simpa [Function.update_noteq ha] using h1 a
  · simpa [Function.update_noteq ha] using hn a

theorem owner_inv_release {τ : Type} [DecidableEq τ] (tp : τ → Nat)
    (s : Sys τ OwnerThread Nat)
    (t : τ) (x : OwnerThread) (mem' : Nat) (log' : List (τ × Ev)) (h : OwnerInv tp s)
    (hheld : (s.th t).held = true) (hm : mem' &&& AFL_TID_MASK = 0) (hx : x.held = false)
    (hp : x.phase ≠ .in_unlock .xchg) :
    OwnerInv tp ⟨mem', Function.update s.th t x, log'⟩ := by
  obtain ⟨h1, h2⟩ := h
  have hn : ∀ a, a ≠ t → (s.th a).held = false := by
    rcases h2 with ⟨_, hn⟩ | ⟨t0, _, _, hn⟩
    · exact fun a _ => hn a
    · intro a ha
      by_cases hat : a = t0
      · subst hat
        have := hn t (fun h => ha h.symm)
        rw [this] at hheld
        cases hheld
      · exact hn a hat
  refine ⟨fun a => ?_, Or.inl ⟨hm, fun a => ?_⟩⟩
  · by_cases ha : a = t
    · subst ha; simpa using fun h => absurd h hp
    · simpa [Function.update_noteq ha] using h1 a
  · by_cases ha : a = t
    · subst ha; simpa using hx
    · simpa [Function.update_noteq ha] using hn a ha

theorem owner_inv_owner_holds {τ : Type} (tp : τ → Nat)
    (hnz : ∀ t, __afl_thread_pointer_tid (tp t) ≠ 0)
    (hinj : ∀ t t', __afl_thread_pointer_tid (tp t) = __afl_thread_pointer_tid (tp t') → t = t')
    (s : Sys τ OwnerThread Nat) (h : OwnerInv tp s) (t : τ)
    (ht : s.mem &&& AFL_TID_MASK = __afl_thread_pointer_tid (tp t)) :
    (s.th t).held = true := by
  rcases h.2 with ⟨h0, _⟩ | ⟨t0, hh, hb, _⟩
  · exact absurd (ht.symm.trans h0) (hnz t)
  · have := hinj t t0 (ht.symm.trans hb)
    rw [this]; exact hh

theorem owner_inv_step {τ : Type} [DecidableEq τ] (tp : τ → Nat)
    (hnz : ∀ t, __afl_thread_pointer_tid (tp t) ≠ 0)
    (hinj : ∀ t t', __afl_thread_pointer_tid (tp t) = __afl_thread_pointer_tid (tp t') → t = t')
    (s : Sys τ OwnerThread Nat) (a : τ × OwnerAct) (h : OwnerInv tp s) :
    OwnerInv tp (owner_step tp s a) := by
  obtain ⟨t, act⟩ := a
  unfold owner_step
  split
  · exact owner_inv_frame tp s t _ _ _ h rfl rfl (by simp)
  · exact owner_inv_frame tp s t _ _ _ h rfl rfl (by simp)
  · rename_i pc hph _
    simp only at hph ⊢
    cases pc with
    | load =>
      refine owner_inv_frame tp s t _ _ _ h ?_ ?_ ?_ <;>
        simp only [afl_mutex_owner_lock_step] <;> split_ifs <;> simp [EDEADLOCK]
    | cas =>
      by_cases hm : s.mem = 0
      · refine owner_inv_acquire tp hnz s t _ _ _ h (by simp [hm]) ?_ ?_ <;>
          simp [afl_mutex_owner_lock_step, atomic_compare_exchange, hm, tid_and_mask]
      · refine owner_inv_frame tp s t _ _ _ h ?_ ?_ ?_ <;>
          simp [afl_mutex_owner_lock_step, atomic_compare_exchange, hm]
    | try_lock lock =>
      refine owner_inv_frame tp s t _ _ _ h ?_ ?_ ?_ <;>
        simp only [afl_mutex_owner_lock_step, atomic_or_fetch] <;> split_ifs <;>
        simp [or_waiters_and_mask]
    | cas_waiters =>
      by_cases hm : s.mem = AFL_HAVE_WAITERS
      · refine owner_inv_acquire tp hnz s t _ _ _ h (by rw [hm]; decide) ?_ ?_ <;>
          simp [afl_mutex_owner_lock_step, atomic_compare_exchange, hm,
            tid_or_waiters_and_mask]
      · refine owner_inv_frame tp s t _ _ _ h ?_ ?_ ?_ <;>
          simp [afl_mutex_owner_lock_step, atomic_compare_exchange, hm]
    | futex lock =>
      refine owner_inv_frame tp s t _ _ _ h ?_ ?_ ?_ <;>
        simp only [afl_mutex_owner_lock_step] <;> split_ifs <;> simp
    | asleep =>
      refine owner_inv_frame tp s t _ _ _ h ?_ ?_ ?_ <;> simp [afl_mutex_owner_lock_step]
    | cas_wake =>
      by_cases hm : s.mem = 0
      · refine owner_inv_acquire tp hnz s t _ _ _ h (by simp [hm]) ?_ ?_ <;>
          simp [afl_mutex_owner_lock_step, atomic_compare_exchange, hm, AFL_UNLOCKED,
            tid_or_waiters_and_mask]
      · refine owner_inv_frame tp s t _ _ _ h ?_ ?_ ?_ <;>
          simp [afl_mutex_owner_lock_step, atomic_compare_exchange, hm, AFL_UNLOCKED]
  · rename_i pc hph _
    simp only at hph ⊢
    cases pc with
    | load =>
      by_cases ho : __afl_thread_pointer_tid (tp t) = s.mem &&& AFL_TID_MASK
      · have hheld := owner_inv_owner_holds tp hnz hinj s h t ho.symm
        refine owner_inv_frame tp s t _ _ _ h ?_ ?_ ?_ <;>
          simp [afl_mutex_owner_unlock_step, ho, hheld]
      · refine owner_inv_frame tp s t _ _ _ h ?_ ?_ ?_ <;>
          simp [afl_mutex_owner_unlock_step, ho]
    | xchg =>
      have hheld := h.1 t hph
      refine owner_inv_release tp s t _ _ _ h hheld ?_ ?_ ?_ <;>
        simp only [afl_mutex_owner_unlock_step, atomic_exchange] <;> split_ifs <;>
        simp [AFL_UNLOCKED]
    | wake =>
      refine owner_inv_frame tp s t _ _ _ h ?_ ?_ ?_ <;> simp [afl_mutex_owner_unlock_step]
  · exact h

/-- C3: for threads whose identifiers are non-zero and pairwise distinct and
that only call `afl_mutex_owner_lock` and `afl_mutex_owner_unlock`, in every
state reached from the mutex 0: at most one thread holds (has completed an
acquiring compare-exchange and not yet executed its unlocking exchange); the
owner bits are 0 or the identifier of the thread that holds; and the owner
bits equal a thread's identifier exactly when that thread holds. -/
theorem owner_mutex_ownership {τ : Type} [DecidableEq τ] (tp : τ → Nat)
    (hnz : ∀ t, __afl_thread_pointer_tid (tp t) ≠ 0)
    (hinj : ∀ t t', __afl_thread_pointer_tid (tp t) = __afl_thread_pointer_tid (tp t') → t = t')
    (sched : List (τ × OwnerAct)) :
    (∀ t t', ((run (owner_step tp) (owner_init τ) sched).th t).held = true →
      ((run (owner_step tp) (owner_init τ) sched).th t').held = true → t = t') ∧
    ((run (owner_step tp) (owner_init τ) sched).mem &&& AFL_TID_MASK = 0 ∨
      ∃ t, ((run (owner_step tp) (owner_init τ) sched).th t).held = true ∧
        (run (owner_step tp) (owner_init τ) sched).mem &&& AFL_TID_MASK
          = __afl_thread_pointer_tid (tp t)) ∧
    (∀ t, ((run (owner_step tp) (owner_init τ) sched).th t).held = true ↔
      (run (owner_step tp) (owner_init τ) sched).mem &&& AFL_TID_MASK
        = __afl_thread_pointer_tid (tp t)) := by
  have hinv : OwnerInv tp (run (owner_step tp) (owner_init τ) sched) :=
    run_invariant (owner_step tp) (OwnerInv tp) (owner_inv_step tp hnz hinj) sched _
      ⟨fun t h => by simp [owner_init] at h, Or.inl ⟨Nat.zero_and _, fun _ => rfl⟩⟩
  generalize run (owner_step tp) (owner_init τ) sched = s at hinv
  have hholds : ∀ t, (s.th t).held = true →
      s.mem &&& AFL_TID_MASK = __afl_thread_pointer_tid (tp t) := by
    intro t ht
    rcases hinv.2 with ⟨_, hn⟩ | ⟨t0, _, hb, hn⟩
    · rw [hn t] at ht; cases ht
    · by_cases ht0 : t = t0
      · rw [ht0]; exact hb
      · rw [hn t ht0] at ht; cases ht
  refine ⟨fun t t' ht ht' => hinj t t' ((hholds t ht).symm.trans (hholds t' ht')), ?_,
    fun t => ⟨hholds t, owner_inv_owner_holds tp hnz hinj s hinv t⟩⟩
  rcases hinv.2 with ⟨h0, _⟩ | ⟨t0, hh, hb, _⟩
  · exact Or.inl h0
  · exact Or.inr ⟨t0, hh, hb⟩

theorem owner_mutex_ownership_witness :
    (∀ t t', ((run (owner_step owner_example_tp) (owner_init Bool) owner_example_sched).th
        t).held = true →
      ((run (owner_step owner_example_tp) (owner_init Bool) owner_example_sched).th
        t').held = true → t = t') ∧
    ((run (owner_step owner_example_tp) (owner_init Bool) owner_example_sched).mem
        &&& AFL_TID_MASK = 0 ∨
      ∃ t, ((run (owner_step owner_example_tp) (owner_init Bool) owner_example_sched).th
          t).held = true ∧
        (run (owner_step owner_example_tp) (owner_init Bool) owner_example_sched).mem
          &&& AFL_TID_MASK = __afl_thread_pointer_tid (owner_example_tp t)) ∧
    (∀ t, ((run (owner_step owner_example_tp) (owner_init Bool) owner_example_sched).th
        t).held = true ↔
      (run (owner_step owner_example_tp) (owner_init Bool) owner_example_sched).mem
        &&& AFL_TID_MASK = __afl_thread_pointer_tid (owner_example_tp t)) :=
  owner_mutex_ownership owner_example_tp (by decide) (by decide) owner_example_sched

theorem owner_example_run :
    (run (owner_step owner_example_tp) (owner_init Bool) owner_example_sched).mem
      = 2 ||| AFL_HAVE_WAITERS ∧
    ((run (owner_step owner_example_tp) (owner_init Bool) owner_example_sched).th false).held
      = true := by decide

/-! ### Identifiers -/

theorem tid_mask_eq : AFL_TID_MASK = 2 ^ 30 - 1 := by decide

theorem flags_of_lt (x : Nat) (h : x < 2 ^ 30) :
    x &&& AFL_TID_MASK = x ∧ x &&& AFL_SUCCESS = 0 ∧ x &&& AFL_HAVE_WAITERS = 0 ∧
      (x ||| AFL_HAVE_WAITERS) &&& AFL_TID_MASK = x := by
  have hm : x &&& AFL_TID_MASK = x := by
    rw [tid_mask_eq]; exact Nat.and_pow_two_sub_one_of_lt_two_pow h
  have hs : AFL_TID_MASK &&& AFL_SUCCESS = 0 := by decide
  have hw : AFL_TID_MASK &&& AFL_HAVE_WAITERS = 0 := by decide
  refine ⟨hm, ?_, ?_, ?_⟩
  · rw [← hm, Nat.and_assoc, hs, Nat.and_zero]
  · rw [← hm, Nat.and_assoc, hw, Nat.and_zero]
  · rw [or_waiters_and_mask, hm]

theorem tid_eq_mod (tp : Nat) : __afl_thread_pointer_tid tp = tp % 2 ^ 30 := by
  unfold __afl_thread_pointer_tid
  rw [tid_mask_eq, Nat.and_pow_two_sub_one_eq_mod]
  exact Nat.mod_mod_of_dvd tp (by decide : (2 : Nat) ^ 30 ∣ 2 ^ 32)

theorem and_mask_eq_mod (x : Nat) : x &&& AFL_TID_MASK = x % 2 ^ 30 := by
  rw [tid_mask_eq, Nat.and_pow_two_sub_one_eq_mod]

theorem gettid_of_cache (ktid tls : Nat) (h : tls = 0 ∨ tls = ktid % 2 ^ 30) :
    (__afl_gettid ktid tls).1 = ktid % 2 ^ 30 ∧ (__afl_gettid ktid tls).2.1 = ktid % 2 ^ 30 := by
  unfold __afl_gettid
  by_cases h0 : tls = 0
  · rw [if_neg (not_not.mpr h0)]
    exact ⟨and_mask_eq_mod ktid, and_mask_eq_mod ktid⟩
  · rw [if_pos h0]
    rcases h with h | h
    · exact absurd h h0
    · exact ⟨h, h⟩

theorem gettid_cache_cases (ktid : Nat) :
    ∀ n, gettid_cache ktid n = 0 ∨ gettid_cache ktid n = ktid % 2 ^ 30 := by
  intro n
  induction n with
  | zero => exact Or.inl rfl
  | succ n ih => exact Or.inr (gettid_of_cache ktid _ ih).2

/-- C19, counterexample: a thread whose kernel thread id is 6 and whose
`__afl_gettid` cache holds 5 (the cache of the parent, in a forked child) gets
5, which is not its kernel thread id mod 2^30. -/
theorem gettid_returns_stale_cache :
    (__afl_gettid 6 5).1 = 5 ∧ 6 % 2 ^ 30 ≠ 5 ∧ (__afl_gettid 6 5).2.2 = [] := by
  decide

/-- C19 (amended): `__afl_thread_pointer_tid` returns the thread pointer mod
2^30.  `__afl_gettid` returns the kernel thread id mod 2^30 when its cache is
empty or has been filled by earlier calls of the same thread; on a cache that
was filled under another kernel thread id `k` it returns `k` mod 2^30
instead.  In every case the result is below 2^30, has bit 30 (`AFL_SUCCESS`)
and bit 31 (`AFL_HAVE_WAITERS`) clear, and is what the owner mask extracts
after the waiters bit has been or-ed in. -/
theorem thread_identifiers_fit (tp ktid k n : Nat) :
    (__afl_thread_pointer_tid tp = tp % 2 ^ 30 ∧
      __afl_thread_pointer_tid tp < 2 ^ 30 ∧
      __afl_thread_pointer_tid tp &&& AFL_SUCCESS = 0 ∧
      __afl_thread_pointer_tid tp &&& AFL_HAVE_WAITERS = 0 ∧
      (__afl_thread_pointer_tid tp ||| 0x80000000) &&& 0x3FFFFFFF
        = __afl_thread_pointer_tid tp) ∧
    ((__afl_gettid ktid (gettid_cache ktid n)).1 = ktid % 2 ^ 30 ∧
      (__afl_gettid ktid (gettid_cache ktid n)).1 < 2 ^ 30 ∧
      (__afl_gettid ktid (gettid_cache ktid n)).1 &&& AFL_SUCCESS = 0 ∧
      (__afl_gettid ktid (gettid_cache ktid n)).1 &&& AFL_HAVE_WAITERS = 0 ∧
      ((__afl_gettid ktid (gettid_cache ktid n)).1 ||| 0x80000000) &&& 0x3FFFFFFF
        = (__afl_gettid ktid (gettid_cache ktid n)).1) ∧
    ((__afl_gettid ktid (gettid_cache k n)).1
        = (if gettid_cache k n ≠ 0 then k % 2 ^ 30 else ktid % 2 ^ 30) ∧
      (__afl_gettid ktid (gettid_cache k n)).1 < 2 ^ 30 ∧
      (__afl_gettid ktid (gettid_cache k n)).1 &&& AFL_SUCCESS = 0 ∧
      (__afl_gettid ktid (gettid_cache k n)).1 &&& AFL_HAVE_WAITERS = 0 ∧
      ((__afl_gettid ktid (gettid_cache k n)).1 ||| 0x80000000) &&& 0x3FFFFFFF
        = (__afl_gettid ktid (gettid_cache k n)).1) := by
  have hlt : ∀ x : Nat, x % 2 ^ 30 < 2 ^ 30 := fun x => Nat.mod_lt x (by decide)
  have hg : (__afl_gettid ktid (gettid_cache ktid n)).1 = ktid % 2 ^ 30 :=
    (gettid_of_cache ktid _ (gettid_cache_cases ktid n)).1
  have hk : (__afl_gettid ktid (gettid_cache k n)).1
      = (if gettid_cache k n ≠ 0 then k % 2 ^ 30 else ktid % 2 ^ 30) := by
    by_cases h0 : gettid_cache k n = 0
    · rw [if_neg (not_not.mpr h0), h0]
      exact (gettid_of_cache ktid 0 (Or.inl rfl)).1
    · rw [if_pos h0]
      rcases gettid_cache_cases k n with h | h
      · exact absurd h h0
      · unfold __afl_gettid
        rw [if_pos h0]
        exact h
  refine ⟨?_, ?_, ?_⟩
  · rw [tid_eq_mod]
    obtain ⟨_, h2, h3, h4⟩ := flags_of_lt _ (hlt tp)
    exact ⟨rfl, hlt tp, h2, h3, h4⟩
  · rw [hg]
    obtain ⟨_, h2, h3, h4⟩ := flags_of_lt _ (hlt ktid)
    exact ⟨rfl, hlt ktid, h2, h3, h4⟩
  · rw [hk]
    split
    · obtain ⟨_, h2, h3, h4⟩ := flags_of_lt _ (hlt k)
      exact ⟨rfl, hlt k, h2, h3, h4⟩
    · obtain ⟨_, h2, h3, h4⟩ := flags_of_lt _ (hlt ktid)
      exact ⟨rfl, hlt ktid, h2, h3, h4⟩

/-! ### Wake policy -/

/-- C12, counterexample: a thread whose thread pointer has its low 30 bits
clear has the identifier 0; `afl_mutex_owner_lock` and `afl_spin_owner_lock`
on the free word 0 take it for the owner and return `EDEADLOCK`. -/
theorem zero_identifier_is_refused :
    __afl_thread_pointer_tid 0x40000000 = 0 ∧
    exec (afl_mutex_owner_lock_step 0x40000000) 2 .load 0
      = some ⟨EDEADLOCK, 0, [.load .relaxed 0]⟩ ∧
    exec (afl_spin_owner_lock_step 0x40000000) 2 .load 0
      = some ⟨EDEADLOCK, 0, [.load .relaxed 0]⟩ := by
  decide

/-- C12 (amended): for every non-zero identifier `t`, `afl_mutex_owner_lock`
and `afl_spin_owner_lock` called alone on the word 0 return 0 and leave the
word (and so its owner bits) equal to `t`, and the matching unlock by the
same thread then returns 0 and leaves the word 0. -/
theorem zero_word_is_free (tp fuel : Nat) (hf : 2 ≤ fuel)
    (ht : __afl_thread_pointer_tid tp ≠ 0) :
    exec (afl_mutex_owner_lock_step tp) fuel .load 0
      = some ⟨0, __afl_thread_pointer_tid tp,
          [.load .relaxed 0, .cas .acquire .relaxed 0 (__afl_thread_pointer_tid tp) 0]⟩ ∧
    exec (afl_mutex_owner_unlock_step tp) fuel .load (__afl_thread_pointer_tid tp)
      = some ⟨0, 0, [.load .relaxed (__afl_thread_pointer_tid tp),
          .xchg .acquire 0 (__afl_thread_pointer_tid tp)]⟩ ∧
    exec (afl_spin_owner_lock_step tp) fuel .load 0
      = some ⟨0, __afl_thread_pointer_tid tp,
          [.load .relaxed 0, .cas .acquire .relaxed 0 (__afl_thread_pointer_tid tp) 0]⟩ ∧
    exec (afl_spin_owner_unlock_step tp) fuel .load (__afl_thread_pointer_tid tp)
      = some ⟨0, 0, [.load .relaxed (__afl_thread_pointer_tid tp), .store .release 0]⟩ ∧
    __afl_thread_pointer_tid tp &&& AFL_TID_MASK = __afl_thread_pointer_tid tp := by
  refine ⟨?_, ?_, ?_, ?_, tid_and_mask tp⟩
  · refine exec_of_le _ hf ?_
    simp [exec, afl_mutex_owner_lock_step, atomic_compare_exchange, ht]
  · refine exec_of_le _ hf ?_
    simp [exec, afl_mutex_owner_unlock_step, atomic_exchange, tid_and_mask, tid_and_waiters,
      AFL_UNLOCKED]
  · refine exec_of_le _ hf ?_
    simp [exec, afl_spin_owner_lock_step, atomic_compare_exchange, ht, AFL_UNLOCKED]
  · refine exec_of_le _ hf ?_
    simp [exec, afl_spin_owner_unlock_step, tid_and_mask, AFL_UNLOCKED]

theorem zero_word_is_free_witness :
    exec (afl_mutex_owner_lock_step 7) 2 .load 0
      = some ⟨0, __afl_thread_pointer_tid 7,
          [.load .relaxed 0, .cas .acquire .relaxed 0 (__afl_thread_pointer_tid 7) 0]⟩ ∧
    exec (afl_mutex_owner_unlock_step 7) 2 .load (__afl_thread_pointer_tid 7)
      = some ⟨0, 0, [.load .relaxed (__afl_thread_pointer_tid 7),
          .xchg .acquire 0 (__afl_thread_pointer_tid 7)]⟩ ∧
    exec (afl_spin_owner_lock_step 7) 2 .load 0
      = some ⟨0, __afl_thread_pointer_tid 7,
          [.load .relaxed 0, .cas .acquire .relaxed 0 (__afl_thread_pointer_tid 7) 0]⟩ ∧
    exec (afl_spin_owner_unlock_step 7) 2 .load (__afl_thread_pointer_tid 7)
      = some ⟨0, 0, [.load .relaxed (__afl_thread_pointer_tid 7), .store .release 0]⟩ ∧
    __afl_thread_pointer_tid 7 &&& AFL_TID_MASK = __afl_thread_pointer_tid 7 :=
  zero_word_is_free 7 2 (by decide) (by decide)

/-! ### Memory orders of `afl_once` -/

/-- C14, counterexample: on the first call the exchange that writes
`AFL_SUCCESS` is not performed with release ordering, and on a later call the
load that observes `AFL_SUCCESS` and lets the caller return at once is not
performed with acquire ordering. -/
theorem once_orders_are_not_release_acquire :
    ¬ (∀ e ∈ (afl_once_step .publish AFL_LOCKED).ev,
        ∀ o v, e = Ev.xchg o AFL_SUCCESS v → o = MemOrder.release) ∧
    ¬ (∀ e ∈ (afl_once_step .load AFL_SUCCESS).ev,
        ∀ o v, e = Ev.load o v → o = MemOrder.acquire) ∧
    (afl_once_step .load AFL_SUCCESS).ctl = .ret 0 := by
  refine ⟨fun h => ?_, fun h => ?_, by decide⟩
  · have := h (.xchg .acquire AFL_SUCCESS AFL_LOCKED) (by decide) .acquire AFL_LOCKED rfl
    cases this
  · have := h (.load .relaxed AFL_SUCCESS) (by decide) .relaxed AFL_SUCCESS rfl
    cases this

/-- C14 (amended): in `afl_once` the operation that writes `AFL_SUCCESS` to
the word is an exchange performed with `__ATOMIC_ACQUIRE`, whatever value it
replaces, and the load of the fast path is performed with `__ATOMIC_RELAXED`,
whatever value it observes; so it is on the first call from 0 and on a call
that finds `AFL_SUCCESS`. -/
theorem once_memory_orders (w : Nat) :
    (afl_once_step .publish w).ev = [.xchg .acquire AFL_SUCCESS w] ∧
    (afl_once_step .load w).ev = [.load .relaxed w] ∧
    exec afl_once_step 5 .load 0
      = some ⟨0, AFL_SUCCESS, [.load .relaxed 0, .cas .acquire .relaxed 0 1 0, .init_call,
          .init_return, .xchg .acquire AFL_SUCCESS 1]⟩ ∧
    exec afl_once_step 1 .load AFL_SUCCESS
      = some ⟨0, AFL_SUCCESS, [.load .relaxed AFL_SUCCESS]⟩ := by
  refine ⟨?_, ?_, by decide, by decide⟩
  · simp only [afl_once_step, atomic_exchange]; split <;> rfl
  · simp only [afl_once_step]; split <;> rfl

/-! ### `afl_mutex_lock` under interference -/

/-- C15: `afl_mutex_lock` called on a held mutex (word `AFL_LOCKED`) whose
holder releases it just before the caller's third step returns 0 although
none of the caller's operations acquired: the load saw 1, the compare-exchange
`0 -> 1` failed on 1, the compare-exchange `1 -> AFL_LOCKED | AFL_HAVE_WAITERS`
failed on 0, and the word after this last operation is 0. -/
theorem mutex_lock_returns_without_acquiring :
    exec_env afl_mutex_lock_step release_before_third_step 3 0 .load AFL_LOCKED
      = some ⟨0, 0, [.load .relaxed 1, .cas .acquire .relaxed 0 1 1,
          .cas .acquire .relaxed 1 (AFL_LOCKED ||| AFL_HAVE_WAITERS) 0]⟩ ∧
    [Ev.load .relaxed 1, .cas .acquire .relaxed 0 1 1,
      .cas .acquire .relaxed 1 (AFL_LOCKED ||| AFL_HAVE_WAITERS) 0].filter Ev.isMutexAcquire
      = [] := by
  decide

/-! ### Waiters of `afl_once` -/

/-- C16: while thread 0 is inside `init` and thread 1 is suspended on the
word `AFL_LOCKED | AFL_HAVE_WAITERS`, thread 2 makes two passes through
`afl_once` (both compare-exchanges fail on `AFL_LOCKED | AFL_HAVE_WAITERS`)
and is back at `try_lock` without having called `FUTEX_WAIT`. -/
theorem once_waiter_spins :
    (run once_step (once_init Nat) once_spin_sched).th 0 = .in_once .in_init ∧
    (run once_step (once_init Nat) once_spin_sched).th 1 = .in_once .asleep ∧
    (run once_step (once_init Nat) once_spin_sched).th 2 = .in_once .try_lock ∧
    (run once_step (once_init Nat) once_spin_sched).mem = AFL_LOCKED ||| AFL_HAVE_WAITERS ∧
    (run once_step (once_init Nat) once_spin_sched).log.filter (fun e => e.1 = 2)
      = [(2, .load .relaxed 0x80000001),
         (2, .cas .acquire .relaxed 0 1 0x80000001),
         (2, .cas .acquire .relaxed 1 0x80000001 0x80000001),
         (2, .cas .acquire .relaxed 0 1 0x80000001),
         (2, .cas .acquire .relaxed 1 0x80000001 0x80000001)] := by
  decide

/-! ### Priority-inheritance unlock -/

/-- C13, counterexample: the owner, whose `__afl_gettid` cache is still empty,
calls `afl_mutex_pi_unlock` on a word that is exactly its identifier; the word
is set to 0 and 0 is returned, but the call has issued the `gettid` system
call. -/
theorem pi_unlock_fast_path_issues_gettid :
    5 &&& AFL_TID_MASK = (__afl_gettid 5 0).1 ∧
    ∃ r : Res PiMem, exec (afl_mutex_pi_unlock_step pi_kernel_id 5) 3 .gettid ⟨5, 0⟩ = some r ∧
      r.ret = 0 ∧ r.mem.word = 0 ∧ r.log.filter Ev.isSyscall = [.gettid] :=
  ⟨by decide, ⟨0, ⟨0, 5⟩, [.gettid, .load .relaxed 5, .cas .acquire .relaxed 5 0 5]⟩,
    by decide, rfl, rfl, by decide⟩

/-- C13 (amended): `afl_mutex_pi_unlock` called by the thread whose identifier
`t` (what `__afl_gettid` returns) equals the owner bits returns 0; if the word
is exactly `t` its compare-exchange sets the word to 0 and no futex call is
made; otherwise the compare-exchange fails (no write in user space) and
exactly one `FUTEX_UNLOCK_PI` call follows.  Before that, `__afl_gettid`
issues one `gettid` call if its cache is empty and none if it is filled.
`afl_mutex_pi_lock` followed by `afl_mutex_pi_unlock` on a mutex at 0, by a
thread with non-zero identifier, takes the word from 0 to `t` to 0 with both
calls returning 0 and no futex call. -/
theorem pi_unlock_paths (K : PiKernel) (ktid tls fuel : Nat) (m : PiMem) (hf : 4 ≤ fuel)
    (hown : m.word &&& AFL_TID_MASK = (__afl_gettid ktid m.tls).1)
    (hc : tls = 0 ∨ tls = ktid % 2 ^ 30) (hne : ktid % 2 ^ 30 ≠ 0) :
    (m.word = (__afl_gettid ktid m.tls).1 →
      exec (afl_mutex_pi_unlock_step K ktid) fuel .gettid m
        = some ⟨0, ⟨0, (__afl_gettid ktid m.tls).2.1⟩,
            (__afl_gettid ktid m.tls).2.2 ++
              [.load .relaxed m.word,
               .cas .acquire .relaxed (__afl_gettid ktid m.tls).1 0 m.word]⟩) ∧
    (m.word ≠ (__afl_gettid ktid m.tls).1 →
      exec (afl_mutex_pi_unlock_step K ktid) fuel .gettid m
        = some ⟨0, ⟨K.unlock_pi ktid m.word, (__afl_gettid ktid m.tls).2.1⟩,
            (__afl_gettid ktid m.tls).2.2 ++
              [.load .relaxed m.word,
               .cas .acquire .relaxed (__afl_gettid ktid m.tls).1 0 m.word,
               .futex_unlock_pi]⟩ ∧
      Ev.isWrite (.cas .acquire .relaxed (__afl_gettid ktid m.tls).1 0 m.word) = false) ∧
    (__afl_gettid ktid m.tls).2.2 = (if m.tls ≠ 0 then [] else [.gettid]) ∧
    exec (afl_mutex_pi_lock_step K ktid) fuel .gettid ⟨0, tls⟩
      = some ⟨0, ⟨ktid % 2 ^ 30, ktid % 2 ^ 30⟩,
          (__afl_gettid ktid tls).2.2 ++
            [.load .relaxed 0, .cas .acquire .relaxed 0 (ktid % 2 ^ 30) 0]⟩ ∧
    exec (afl_mutex_pi_unlock_step K ktid) fuel .gettid ⟨ktid % 2 ^ 30, ktid % 2 ^ 30⟩
      = some ⟨0, ⟨0, ktid % 2 ^ 30⟩,
          [.load .relaxed (ktid % 2 ^ 30),
           .cas .acquire .relaxed (ktid % 2 ^ 30) 0 (ktid % 2 ^ 30)]⟩ := by
  have h3 : 3 ≤ fuel := Nat.le_trans (by decide : 3 ≤ 4) hf
  have hmod : ktid % 2 ^ 30 &&& AFL_TID_MASK = ktid % 2 ^ 30 :=
    (flags_of_lt _ (Nat.mod_lt _ (by decide))).1
  refine ⟨?_, ?_, ?_, ?_, ?_⟩
  · intro he
    have hfinal : exec (afl_mutex_pi_unlock_step K ktid) 3 .gettid m
        = some ⟨0, ⟨0, (__afl_gettid ktid m.tls).2.1⟩,
            (__afl_gettid ktid m.tls).2.2 ++ ([.load .relaxed m.word] ++
              [.cas .acquire .relaxed (__afl_gettid ktid m.tls).1 0 m.word])⟩ := by
      refine exec_eq_of_step (PiUnlockPc.load (__afl_gettid ktid m.tls).1)
        (PiMem.mk m.word (__afl_gettid ktid m.tls).2.1) rfl rfl rfl ?_
      refine exec_eq_of_step (PiUnlockPc.cas (__afl_gettid ktid m.tls).1)
        (PiMem.mk m.word (__afl_gettid ktid m.tls).2.1) ?_ ?_ ?_ ?_
      · simp [afl_mutex_pi_unlock_step, hown]
      · simp [afl_mutex_pi_unlock_step, hown]
      · simp [afl_mutex_pi_unlock_step, hown]
      · refine exec_eq_of_ret _ ?_ ?_ ?_ <;>
          simp [afl_mutex_pi_unlock_step, atomic_compare_exchange, he, AFL_UNLOCKED]
    exact exec_of_le _ h3 hfinal
  · intro he
    have hfinal : exec (afl_mutex_pi_unlock_step K ktid) 4 .gettid m
        = some ⟨0, ⟨K.unlock_pi ktid m.word, (__afl_gettid ktid m.tls).2.1⟩,
            (__afl_gettid ktid m.tls).2.2 ++ ([.load .relaxed m.word] ++
              ([.cas .acquire .relaxed (__afl_gettid ktid m.tls).1 0 m.word] ++
                [.futex_unlock_pi]))⟩ := by
      refine exec_eq_of_step (PiUnlockPc.load (__afl_gettid ktid m.tls).1)
        (PiMem.mk m.word (__afl_gettid ktid m.tls).2.1) rfl rfl rfl ?_
      refine exec_eq_of_step (PiUnlockPc.cas (__afl_gettid ktid m.tls).1)
        (PiMem.mk m.word (__afl_gettid ktid m.tls).2.1) ?_ ?_ ?_ ?_
      · simp [afl_mutex_pi_unlock_step, hown]
      · simp [afl_mutex_pi_unlock_step, hown]
      · simp [afl_mutex_pi_unlock_step, hown]
      · refine exec_eq_of_step PiUnlockPc.unlock_pi
          (PiMem.mk m.word (__afl_gettid ktid m.tls).2.1) ?_ ?_ ?_
          (exec_eq_of_ret _ rfl rfl rfl) <;>
          simp [afl_mutex_pi_unlock_step, atomic_compare_exchange, he, AFL_UNLOCKED]
    refine ⟨exec_of_le _ hf hfinal, ?_⟩
    simpa [Ev.isWrite] using he
  · unfold __afl_gettid; split <;> simp_all
  · obtain ⟨hg1, hg2⟩ := gettid_of_cache ktid tls hc
    generalize ktid % 2 ^ 30 = t at hg1 hg2 hne hmod ⊢
    have hfinal : exec (afl_mutex_pi_lock_step K ktid) 3 .gettid ⟨0, tls⟩
        = some ⟨0, ⟨t, t⟩,
            (__afl_gettid ktid tls).2.2 ++ ([.load .relaxed 0] ++
              [.cas .acquire .relaxed 0 t 0])⟩ := by
      refine exec_eq_of_step (PiLockPc.load t) (PiMem.mk 0 t) ?_ ?_ rfl ?_
      · simp [afl_mutex_pi_lock_step, hg1]
      · simp [afl_mutex_pi_lock_step, hg2]
      · refine exec_eq_of_step (PiLockPc.cas t) (PiMem.mk 0 t) ?_ ?_ ?_ ?_
        · simp [afl_mutex_pi_lock_step, hne]
        · simp [afl_mutex_pi_lock_step, hne]
        · simp [afl_mutex_pi_lock_step, hne]
        · refine exec_eq_of_ret _ ?_ ?_ ?_ <;>
            simp [afl_mutex_pi_lock_step, atomic_compare_exchange]
    exact exec_of_le _ h3 hfinal
  · obtain ⟨hg1, hg2⟩ := gettid_of_cache ktid (ktid % 2 ^ 30) (Or.inr rfl)
    have hg3 : (__afl_gettid ktid (ktid % 2 ^ 30)).2.2 = [] := by
      unfold __afl_gettid; rw [if_pos hne]
    generalize ktid % 2 ^ 30 = t at hg1 hg2 hg3 hne hmod ⊢
    have hfinal : exec (afl_mutex_pi_unlock_step K ktid) 3 .gettid ⟨t, t⟩
        = some ⟨0, ⟨0, t⟩,
            [] ++ ([.load .relaxed t] ++ [.cas .acquire .relaxed t 0 t])⟩ := by
      refine exec_eq_of_step (PiUnlockPc.load t) (PiMem.mk t t) ?_ ?_ ?_ ?_
      · simp [afl_mutex_pi_unlock_step, hg1]
      · simp [afl_mutex_pi_unlock_step, hg2]
      · simp [afl_mutex_pi_unlock_step, hg3]
      · refine exec_eq_of_step (PiUnlockPc.cas t) (PiMem.mk t t) ?_ ?_ ?_ ?_
        · simp [afl_mutex_pi_unlock_step, hmod]
        · simp [afl_mutex_pi_unlock_step, hmod]
        · simp [afl_mutex_pi_unlock_step, hmod]
        · refine exec_eq_of_ret _ ?_ ?_ ?_ <;>
            simp [afl_mutex_pi_unlock_step, atomic_compare_exchange, AFL_UNLOCKED]
    exact exec_of_le _ h3 hfinal

theorem pi_unlock_paths_witness :
    ((⟨9 ||| AFL_HAVE_WAITERS, 9⟩ : PiMem).word = (__afl_gettid 9 9).1 →
      exec (afl_mutex_pi_unlock_step pi_kernel_id 9) 4 .gettid ⟨9 ||| AFL_HAVE_WAITERS, 9⟩
        = some ⟨0, ⟨0, (__afl_gettid 9 9).2.1⟩,
            (__afl_gettid 9 9).2.2 ++
              [.load .relaxed (9 ||| AFL_HAVE_WAITERS),
               .cas .acquire .relaxed (__afl_gettid 9 9).1 0 (9 ||| AFL_HAVE_WAITERS)]⟩) ∧
    ((⟨9 ||| AFL_HAVE_WAITERS, 9⟩ : PiMem).word ≠ (__afl_gettid 9 9).1 →
      exec (afl_mutex_pi_unlock_step pi_kernel_id 9) 4 .gettid ⟨9 ||| AFL_HAVE_WAITERS, 9⟩
        = some ⟨0, ⟨pi_kernel_id.unlock_pi 9 (9 ||| AFL_HAVE_WAITERS), (__afl_gettid 9 9).2.1⟩,
            (__afl_gettid 9 9).2.2 ++
              [.load .relaxed (9 ||| AFL_HAVE_WAITERS),
               .cas .acquire .relaxed (__afl_gettid 9 9).1 0 (9 ||| AFL_HAVE_WAITERS),
               .futex_unlock_pi]⟩ ∧
      Ev.isWrite (.cas .acquire .relaxed (__afl_gettid 9 9).1 0 (9 ||| AFL_HAVE_WAITERS))
        = false) ∧
    (__afl_gettid 9 9).2.2 = (if (9 : Nat) ≠ 0 then [] else [.gettid]) ∧
    exec (afl_mutex_pi_lock_step pi_kernel_id 9) 4 .gettid ⟨0, 0⟩
      = some ⟨0, ⟨9 % 2 ^ 30, 9 % 2 ^ 30⟩,
          (__afl_gettid 9 0).2.2 ++
            [.load .relaxed 0, .cas .acquire .relaxed 0 (9 % 2 ^ 30) 0]⟩ ∧
    exec (afl_mutex_pi_unlock_step pi_kernel_id 9) 4 .gettid ⟨9 % 2 ^ 30, 9 % 2 ^ 30⟩
      = some ⟨0, ⟨0, 9 % 2 ^ 30⟩,
          [.load .relaxed (9 % 2 ^ 30),
           .cas .acquire .relaxed (9 % 2 ^ 30) 0 (9 % 2 ^ 30)]⟩ :=
  pi_unlock_paths pi_kernel_id 9 0 4 ⟨9 ||| AFL_HAVE_WAITERS, 9⟩ (by decide) (by decide)
    (Or.inl rfl) (by decide)

/-! ### State-word encoding of the owner-tracked mutexes -/

/-- C18, counterexample: the owner releases the mutex between a contender's
load and its `__atomic_or_fetch`; the word is then `AFL_HAVE_WAITERS` alone:
the waiters bit is set while the owner bits are 0.  The same happens on the
recursive mutex. -/
theorem waiters_bit_alone_is_reachable :
    (run (owner_step owner_example_tp) (owner_init Bool) waiters_alone_sched).mem
      = AFL_HAVE_WAITERS ∧
    (run (rec_step (2 ^ 64 - 1) owner_example_tp) (rec_init Bool)
      rec_waiters_alone_sched).mem.lock = AFL_HAVE_WAITERS ∧
    AFL_HAVE_WAITERS &&& AFL_TID_MASK = 0 ∧ AFL_HAVE_WAITERS &&& AFL_HAVE_WAITERS ≠ 0 := by
  decide

theorem shape_cas {τ : Type} (tp : τ → Nat) (w e d : Nat) (hw : WordShape tp w)
    (hd : WordShape tp d) : WordShape tp (atomic_compare_exchange w e d).2.1 := by
  unfold atomic_compare_exchange
  split
  · exact hd
  · exact hw

theorem shape_or {τ : Type} (tp : τ → Nat) (w : Nat) (hw : WordShape tp w) :
    WordShape tp (w ||| AFL_HAVE_WAITERS) := by
  rcases hw with h | h | ⟨t, h | h⟩
  · rw [h, Nat.zero_or]; exact Or.inr (Or.inl rfl)
  · rw [h, Nat.or_self]; exact Or.inr (Or.inl rfl)
  · rw [h]; exact Or.inr (Or.inr ⟨t, Or.inr rfl⟩)
  · rw [h, Nat.or_assoc, Nat.or_self]; exact Or.inr (Or.inr ⟨t, Or.inr rfl⟩)

theorem shape_owner_lock {τ : Type} (tp : τ → Nat) (t : τ) (pc : OwnerLockPc) (w : Nat)
    (hw : WordShape tp w) :
    WordShape tp (afl_mutex_owner_lock_step (tp t) pc w).mem := by
  have h1 : WordShape tp (__afl_thread_pointer_tid (tp t)) := Or.inr (Or.inr ⟨t, Or.inl rfl⟩)
  have h2 : WordShape tp (__afl_thread_pointer_tid (tp t) ||| AFL_HAVE_WAITERS) :=
    Or.inr (Or.inr ⟨t, Or.inr rfl⟩)
  cases pc with
  | load => simp only [afl_mutex_owner_lock_step]; split_ifs <;> exact hw
  | cas =>
    simp only [afl_mutex_owner_lock_step]
    split_ifs <;> exact shape_cas tp _ _ _ hw h1
  | try_lock lock =>
    simp only [afl_mutex_owner_lock_step, atomic_or_fetch]
    split_ifs
    · exact shape_or tp w hw
    · exact shape_or tp w hw
    · exact hw
  | cas_waiters =>
    simp only [afl_mutex_owner_lock_step]
    split_ifs <;> exact shape_cas tp _ _ _ hw h2
  | futex lock => simp only [afl_mutex_owner_lock_step]; split_ifs <;> exact hw
  | asleep => exact hw
  | cas_wake =>
    simp only [afl_mutex_owner_lock_step]
    split_ifs <;> exact shape_cas tp _ _ _ hw h2

theorem shape_owner_unlock {τ : Type} (tp : τ → Nat) (t : τ) (pc : OwnerUnlockPc) (w : Nat)
    (hw : WordShape tp w) :
    WordShape tp (afl_mutex_owner_unlock_step (tp t) pc w).mem := by
  cases pc with
  | load => simp only [afl_mutex_owner_unlock_step]; split_ifs <;> exact hw
  | xchg =>
    simp only [afl_mutex_owner_unlock_step, atomic_exchange]
    split_ifs <;> exact Or.inl rfl
  | wake => exact hw

theorem shape_rec_lock {τ : Type} (SIZE_MAX : Nat) (tp : τ → Nat) (t : τ) (pc : RecLockPc)
    (m : RecMutex) (hw : WordShape tp m.lock) :
    WordShape tp (afl_mutex_recursive_lock_step SIZE_MAX (tp t) pc m).mem.lock := by
  have h1 : WordShape tp (__afl_thread_pointer_tid (tp t)) := Or.inr (Or.inr ⟨t, Or.inl rfl⟩)
  have h2 : WordShape tp (__afl_thread_pointer_tid (tp t) ||| AFL_HAVE_WAITERS) :=
    Or.inr (Or.inr ⟨t, Or.inr rfl⟩)
  cases pc with
  | load => simp only [afl_mutex_recursive_lock_step]; split_ifs <;> exact hw
  | cas =>
    simp only [afl_mutex_recursive_lock_step]
    split_ifs <;> exact shape_cas tp _ _ _ hw h1
  | reenter => simp only [afl_mutex_recursive_lock_step]; split_ifs <;> exact hw
  | try_lock lock =>
    simp only [afl_mutex_recursive_lock_step, atomic_or_fetch]
    split_ifs
    · exact shape_or tp _ hw
    · exact shape_or tp _ hw
    · exact hw
  | cas_waiters =>
    simp only [afl_mutex_recursive_lock_step]
    split_ifs <;> exact shape_cas tp _ _ _ hw h2
  | futex lock => simp only [afl_mutex_recursive_lock_step]; split_ifs <;> exact hw
  | asleep => exact hw
  | cas_wake =>
    simp only [afl_mutex_recursive_lock_step]
    split_ifs <;> exact shape_cas tp _ _ _ hw h2
  | success => exact hw

theorem shape_rec_unlock {τ : Type} (SIZE_MAX : Nat) (tp : τ → Nat) (t : τ)
    (pc : RecUnlockPc) (m : RecMutex) (hw : WordShape tp m.lock) :
    WordShape tp (afl_mutex_recursive_unlock_step SIZE_MAX (tp t) pc m).mem.lock := by
  cases pc with
  | load => simp only [afl_mutex_recursive_unlock_step]; split_ifs <;> exact hw
  | dec => simp only [afl_mutex_recursive_unlock_step]; split_ifs <;> exact hw
  | xchg =>
    simp only [afl_mutex_recursive_unlock_step, atomic_exchange]
    split_ifs <;> exact Or.inl rfl
  | wake => exact hw

theorem owner_shape_run {τ : Type} [DecidableEq τ] (tp : τ → Nat)
    (sched : List (τ × OwnerAct)) :
    WordShape tp (run (owner_step tp) (owner_init τ) sched).mem := by
  refine run_invariant (owner_step tp) (fun s => WordShape tp s.mem) ?_ sched _ (Or.inl rfl)
  intro s a h
  unfold owner_step
  split
  · exact h
  · exact h
  · exact shape_owner_lock tp a.1 _ s.mem h
  · exact shape_owner_unlock tp a.1 _ s.mem h
  · exact h

theorem rec_shape_run {τ : Type} [DecidableEq τ] (SIZE_MAX : Nat) (tp : τ → Nat)
    (sched : List (τ × OwnerAct)) :
    WordShape tp (run (rec_step SIZE_MAX tp) (rec_init τ) sched).mem.lock := by
  refine run_invariant (rec_step SIZE_MAX tp) (fun s => WordShape tp s.mem.lock) ?_ sched _
    (Or.inl rfl)
  intro s a h
  unfold rec_step
  split
  · exact h
  · exact h
  · exact shape_rec_lock SIZE_MAX tp a.1 _ s.mem h
  · exact shape_rec_unlock SIZE_MAX tp a.1 _ s.mem h
  · exact h

theorem rec_inv_frame {τ : Type} [DecidableEq τ] (tp : τ → Nat)
    (s : Sys τ RecThread RecMutex) (t : τ) (x : RecThread) (mem' : RecMutex)
    (log' : List (τ × Ev)) (h : RecInv tp s)
    (hm : mem'.lock &&& AFL_TID_MASK = s.mem.lock &&& AFL_TID_MASK)
    (hx : x.held = (s.th t).held)
    (hp : (x.phase = .in_unlock .dec ∨ x.phase = .in_unlock .xchg) → x.held = true) :
    RecInv tp ⟨mem', Function.update s.th t x, log'⟩ := by
  obtain ⟨h1, h2⟩ := h
  refine ⟨fun a => ?_, ?_⟩
  · by_cases ha : a = t
    · subst ha; simpa using hp
    · simpa [Function.update_noteq ha] using h1 a
  · rcases h2 with ⟨h0, hn⟩ | ⟨t0, hh, hb, hn⟩
    · refine Or.inl ⟨by rw [hm]; exact h0, fun a => ?_⟩
      by_cases ha : a = t
      · subst ha; simpa [hx] using hn a
      · simpa [Function.update_noteq ha] using hn a
    · refine Or.inr ⟨t0, ?_, by rw [hm]; exact hb, fun a hne => ?_⟩
      · by_cases ha : t0 = t
        · subst ha; simpa [hx] using hh
        · simpa [Function.update_noteq ha] using hh
      · by_cases ha : a = t
        · subst ha; simpa [hx] using hn a hne
        · simpa [Function.update_noteq ha] using hn a hne

theorem rec_inv_acquire {τ : Type} [DecidableEq τ] (tp : τ → Nat)
    (hnz : ∀ t, __afl_thread_pointer_tid (tp t) ≠ 0) (s : Sys τ RecThread RecMutex)
    (t : τ) (x : RecThread) (mem' : RecMutex) (log' : List (τ × Ev)) (h : RecInv tp s)
    (h0 : s.mem.lock &&& AFL_TID_MASK = 0)
    (hm : mem'.lock &&& AFL_TID_MASK = __afl_thread_pointer_tid (tp t))
    (hx : x.held = true) :
    RecInv tp ⟨mem', Function.update s.th t x, log'⟩ := by
  obtain ⟨h1, h2⟩ := h
  have hn : ∀ a, (s.th a).held = false := by
    rcases h2 with ⟨_, hn⟩ | ⟨t0, _, hb, _⟩
    · exact hn
    · exact absurd (hb.symm.trans h0) (hnz t0)
  refine ⟨fun a => ?_, Or.inr ⟨t, by simpa using hx, hm, fun a ha => ?_⟩⟩
  · by_cases ha : a = t
    · subst ha; simpa using fun _ => hx
    · simpa [Function.update_noteq ha] using h1 a
  · simpa [Function.update_noteq ha] using hn a

theorem rec_inv_release {τ : Type} [DecidableEq τ] (tp : τ → Nat)
    (s : Sys τ RecThread RecMutex) (t : τ) (x : RecThread) (mem' : RecMutex)
    (log' : List (τ × Ev)) (h : RecInv tp s)
    (hheld : (s.th t).held = true) (hm : mem'.lock &&& AFL_TID_MASK = 0)
    (hx : x.held = false)
    (hp : ¬ (x.phase = .in_unlock .dec ∨ x.phase = .in_unlock .xchg)) :
    RecInv tp ⟨mem', Function.update s.th t x, log'⟩ := by
  obtain ⟨h1, h2⟩ := h
  have hn : ∀ a, a ≠ t → (s.th a).held = false := by
    rcases h2 with ⟨_, hn⟩ | ⟨t0, _, _, hn⟩
    · exact fun a _ => hn a
    · intro a ha
      by_cases hat : a = t0
      · subst hat
        have := hn t (fun h => ha h.symm)
        rw [this] at hheld
        cases hheld
      · exact hn a hat
  refine ⟨fun a => ?_, Or.inl ⟨hm, fun a => ?_⟩⟩
  · by_cases ha : a = t
    · subst ha; simpa using fun h => absurd h hp
    · simpa [Function.update_noteq ha] using h1 a
  · by_cases ha : a = t
    · subst ha; simpa using hx
    · simpa [Function.update_noteq ha] using hn a ha

theorem rec_inv_owner_holds {τ : Type} (tp : τ → Nat)
    (hnz : ∀ t, __afl_thread_pointer_tid (tp t) ≠ 0)
    (hinj : ∀ t t', __afl_thread_pointer_tid (tp t) = __afl_thread_pointer_tid (tp t') → t = t')
    (s : Sys τ RecThread RecMutex) (h : RecInv tp s) (t : τ)
    (ht : s.mem.lock &&& AFL_TID_MASK = __afl_thread_pointer_tid (tp t)) :
    (s.th t).held = true := by
  rcases h.2 with ⟨h0, _⟩ | ⟨t0, hh, hb, _⟩
  · exact absurd (ht.symm.trans h0) (hnz t)
  · have := hinj t t0 (ht.symm.trans hb)
    rw [this]; exact hh

theorem rec_inv_step {τ : Type} [DecidableEq τ] (SIZE_MAX : Nat) (tp : τ → Nat)
    (hnz : ∀ t, __afl_thread_pointer_tid (tp t) ≠ 0)
    (hinj : ∀ t t', __afl_thread_pointer_tid (tp t) = __afl_thread_pointer_tid (tp t') → t = t')
    (s : Sys τ RecThread RecMutex) (a : τ × OwnerAct) (h : RecInv tp s) :
    RecInv tp (rec_step SIZE_MAX tp s a) := by
  obtain ⟨t, act⟩ := a
  unfold rec_step
  split
  · exact rec_inv_frame tp s t _ _ _ h rfl rfl (by simp)
  · exact rec_inv_frame tp s t _ _ _ h rfl rfl (by simp)
  · rename_i pc hph _
    simp only at hph ⊢
    cases pc with
    | load =>
      refine rec_inv_frame tp s t _ _ _ h ?_ ?_ ?_ <;>
        simp only [afl_mutex_recursive_lock_step] <;> split_ifs <;> simp
    | cas =>
      by_cases hm : s.mem.lock = 0
      · refine rec_inv_acquire tp hnz s t _ _ _ h (by simp [hm]) ?_ ?_ <;>
          simp [afl_mutex_recursive_lock_step, atomic_compare_exchange, hm, tid_and_mask]
      · refine rec_inv_frame tp s t _ _ _ h ?_ ?_ ?_ <;>
          simp only [afl_mutex_recursive_lock_step, atomic_compare_exchange] <;>
          split_ifs <;> simp_all
    | reenter =>
      refine rec_inv_frame tp s t _ _ _ h ?_ ?_ ?_ <;>
        simp only [afl_mutex_recursive_lock_step] <;> split_ifs <;> simp
    | try_lock lock =>
      refine rec_inv_frame tp s t _ _ _ h ?_ ?_ ?_ <;>
        simp only [afl_mutex_recursive_lock_step, atomic_or_fetch] <;> split_ifs <;>
        simp [or_waiters_and_mask]
    | cas_waiters =>
      by_cases hm : s.mem.lock = AFL_HAVE_WAITERS
      · refine rec_inv_acquire tp hnz s t _ _ _ h (by rw [hm]; decide) ?_ ?_ <;>
          simp [afl_mutex_recursive_lock_step, atomic_compare_exchange, hm,
            tid_or_waiters_and_mask]
      · refine rec_inv_frame tp s t _ _ _ h ?_ ?_ ?_ <;>
          simp [afl_mutex_recursive_lock_step, atomic_compare_exchange, hm]
    | futex lock =>
      refine rec_inv_frame tp s t _ _ _ h ?_ ?_ ?_ <;>
        simp only [afl_mutex_recursive_lock_step] <;> split_ifs <;> simp
    | asleep =>
      refine rec_inv_frame tp s t _ _ _ h ?_ ?_ ?_ <;> simp [afl_mutex_recursive_lock_step]
    | cas_wake =>
      by_cases hm : s.mem.lock = 0
      · refine rec_inv_acquire tp hnz s t _ _ _ h (by simp [hm]) ?_ ?_ <;>
          simp [afl_mutex_recursive_lock_step, atomic_compare_exchange, hm, AFL_UNLOCKED,
            tid_or_waiters_and_mask]
      · refine rec_inv_frame tp s t _ _ _ h ?_ ?_ ?_ <;>
          simp [afl_mutex_recursive_lock_step, atomic_compare_exchange, hm, AFL_UNLOCKED]
    | success =>
      refine rec_inv_frame tp s t _ _ _ h ?_ ?_ ?_ <;> simp [afl_mutex_recursive_lock_step]
  · rename_i pc hph _
    simp only at hph ⊢
    cases pc with
    | load =>
      by_cases ho : __afl_thread_pointer_tid (tp t) = s.mem.lock &&& AFL_TID_MASK
      · have hheld := rec_inv_owner_holds tp hnz hinj s h t ho.symm
        refine rec_inv_frame tp s t _ _ _ h ?_ ?_ ?_ <;>
          simp [afl_mutex_recursive_unlock_step, ho, hheld]
      · refine rec_inv_frame tp s t _ _ _ h ?_ ?_ ?_ <;>
          simp [afl_mutex_recursive_unlock_step, ho]
    | dec =>
      have hheld := h.1 t (Or.inl hph)
      refine rec_inv_frame tp s t _ _ _ h ?_ ?_ ?_ <;>
        simp only [afl_mutex_recursive_unlock_step] <;> split_ifs <;> simp [hheld]
    | xchg =>
      have hheld := h.1 t (Or.inr hph)
      refine rec_inv_release tp s t _ _ _ h hheld ?_ ?_ ?_ <;>
        simp only [afl_mutex_recursive_unlock_step, atomic_exchange] <;> split_ifs <;>
        simp [AFL_UNLOCKED]
    | wake =>
      refine rec_inv_frame tp s t _ _ _ h ?_ ?_ ?_ <;>
        simp [afl_mutex_recursive_unlock_step]
  · exact h

/-- The holder of the recursive mutex: after thread `true` has run
`afl_mutex_recursive_lock` alone, it holds, the other thread does not, and the
lock word is its identifier. -/
theorem rec_example_holder :
    ((run (rec_step (2 ^ 64 - 1) owner_example_tp) (rec_init Bool)
        (rec_waiters_alone_sched.take 4)).th true).held = true ∧
    ((run (rec_step (2 ^ 64 - 1) owner_example_tp) (rec_init Bool)
        (rec_waiters_alone_sched.take 4)).th false).held = false ∧
    (run (rec_step (2 ^ 64 - 1) owner_example_tp) (rec_init Bool)
        (rec_waiters_alone_sched.take 4)).mem.lock
      = __afl_thread_pointer_tid (owner_example_tp true) := by
  decide

/-- C18 (amended): for threads with distinct non-zero identifiers, in every
state that a schedule of `afl_mutex_owner_lock` / `afl_mutex_owner_unlock`
calls reaches from the word 0, the word is 0 or the waiters bit alone (and
then nobody holds), or the identifier of the thread that holds, bare or with
the waiters bit; and the same holds of the lock word of the recursive mutex
in every state that a schedule of `afl_mutex_recursive_lock` /
`afl_mutex_recursive_unlock` calls reaches from the initialised mutex: it is
0 or the waiters bit alone (and then nobody holds), or the identifier of the
thread that holds, bare or with the waiters bit. -/
theorem owner_word_encoding {τ : Type} [DecidableEq τ] (SIZE_MAX : Nat) (tp : τ → Nat)
    (hnz : ∀ t, __afl_thread_pointer_tid (tp t) ≠ 0)
    (hinj : ∀ t t', __afl_thread_pointer_tid (tp t) = __afl_thread_pointer_tid (tp t') → t = t')
    (sched sched' : List (τ × OwnerAct)) :
    ((((run (owner_step tp) (owner_init τ) sched).mem = 0 ∨
        (run (owner_step tp) (owner_init τ) sched).mem = AFL_HAVE_WAITERS) ∧
        ∀ t, ((run (owner_step tp) (owner_init τ) sched).th t).held = false) ∨
      ∃ t, ((run (owner_step tp) (owner_init τ) sched).th t).held = true ∧
        ((run (owner_step tp) (owner_init τ) sched).mem = __afl_thread_pointer_tid (tp t) ∨
         (run (owner_step tp) (owner_init τ) sched).mem
          = __afl_thread_pointer_tid (tp t) ||| AFL_HAVE_WAITERS)) ∧
    ((((run (rec_step SIZE_MAX tp) (rec_init τ) sched').mem.lock = 0 ∨
        (run (rec_step SIZE_MAX tp) (rec_init τ) sched').mem.lock = AFL_HAVE_WAITERS) ∧
        ∀ t, ((run (rec_step SIZE_MAX tp) (rec_init τ) sched').th t).held = false) ∨
      ∃ t, ((run (rec_step SIZE_MAX tp) (rec_init τ) sched').th t).held = true ∧
        ((run (rec_step SIZE_MAX tp) (rec_init τ) sched').mem.lock
          = __afl_thread_pointer_tid (tp t) ∨
         (run (rec_step SIZE_MAX tp) (rec_init τ) sched').mem.lock
          = __afl_thread_pointer_tid (tp t) ||| AFL_HAVE_WAITERS)) := by
  constructor
  · have hshape := owner_shape_run tp sched
    have hinv : OwnerInv tp (run (owner_step tp) (owner_init τ) sched) :=
      run_invariant (owner_step tp) (OwnerInv tp) (owner_inv_step tp hnz hinj) sched _
        ⟨fun t h => by simp [owner_init] at h, Or.inl ⟨Nat.zero_and _, fun _ => rfl⟩⟩
    generalize run (owner_step tp) (owner_init τ) sched = s at hshape hinv
    have hfree : s.mem &&& AFL_TID_MASK = 0 → ∀ t, (s.th t).held = false := by
      intro h0
      rcases hinv.2 with ⟨_, hn⟩ | ⟨t0, _, hb, _⟩
      · exact hn
      · exact absurd (hb.symm.trans h0) (hnz t0)
    rcases hshape with h | h | ⟨t, h | h⟩
    · exact Or.inl ⟨Or.inl h, hfree (by rw [h]; exact Nat.zero_and _)⟩
    · exact Or.inl ⟨Or.inr h, hfree (by rw [h]; decide)⟩
    · exact Or.inr ⟨t, owner_inv_owner_holds tp hnz hinj s hinv t
        (by rw [h]; exact tid_and_mask _), Or.inl h⟩
    · exact Or.inr ⟨t, owner_inv_owner_holds tp hnz hinj s hinv t
        (by rw [h]; exact tid_or_waiters_and_mask _), Or.inr h⟩
  · have hshape := rec_shape_run SIZE_MAX tp sched'
    have hinv : RecInv tp (run (rec_step SIZE_MAX tp) (rec_init τ) sched') :=
      run_invariant (rec_step SIZE_MAX tp) (RecInv tp) (rec_inv_step SIZE_MAX tp hnz hinj)
        sched' _
        ⟨fun t h => by simp [rec_init] at h, Or.inl ⟨Nat.zero_and _, fun _ => rfl⟩⟩
    generalize run (rec_step SIZE_MAX tp) (rec_init τ) sched' = s at hshape hinv
    have hfree : s.mem.lock &&& AFL_TID_MASK = 0 → ∀ t, (s.th t).held = false := by
      intro h0
      rcases hinv.2 with ⟨_, hn⟩ | ⟨t0, _, hb, _⟩
      · exact hn
      · exact absurd (hb.symm.trans h0) (hnz t0)
    rcases hshape with h | h | ⟨t, h | h⟩
    · exact Or.inl ⟨Or.inl h, hfree (by rw [h]; exact Nat.zero_and _)⟩
    · exact Or.inl ⟨Or.inr h, hfree (by rw [h]; decide)⟩
    · exact Or.inr ⟨t, rec_inv_owner_holds tp hnz hinj s hinv t
        (by rw [h]; exact tid_and_mask _), Or.inl h⟩
    · exact Or.inr ⟨t, rec_inv_owner_holds tp hnz hinj s hinv t
        (by rw [h]; exact tid_or_waiters_and_mask _), Or.inr h⟩

theorem owner_word_encoding_witness :
    (∀ t, __afl_thread_pointer_tid (owner_example_tp t) ≠ 0) ∧
    ((((run (owner_step owner_example_tp) (owner_init Bool) owner_example_sched).mem = 0 ∨
        (run (owner_step owner_example_tp) (owner_init Bool) owner_example_sched).mem
          = AFL_HAVE_WAITERS) ∧
        ∀ t, ((run (owner_step owner_example_tp) (owner_init Bool) owner_example_sched).th
          t).held = false) ∨
      ∃ t, ((run (owner_step owner_example_tp) (owner_init Bool) owner_example_sched).th
          t).held = true ∧
        ((run (owner_step owner_example_tp) (owner_init Bool) owner_example_sched).mem
          = __afl_thread_pointer_tid (owner_example_tp t) ∨
         (run (owner_step owner_example_tp) (owner_init Bool) owner_example_sched).mem
          = __afl_thread_pointer_tid (owner_example_tp t) ||| AFL_HAVE_WAITERS)) ∧
    ((((run (rec_step (2 ^ 64 - 1) owner_example_tp) (rec_init Bool)
          rec_waiters_alone_sched).mem.lock = 0 ∨
        (run (rec_step (2 ^ 64 - 1) owner_example_tp) (rec_init Bool)
          rec_waiters_alone_sched).mem.lock = AFL_HAVE_WAITERS) ∧
        ∀ t, ((run (rec_step (2 ^ 64 - 1) owner_example_tp) (rec_init Bool)
          rec_waiters_alone_sched).th t).held = false) ∨
      ∃ t, ((run (rec_step (2 ^ 64 - 1) owner_example_tp) (rec_init Bool)
          rec_waiters_alone_sched).th t).held = true ∧
        ((run (rec_step (2 ^ 64 - 1) owner_example_tp) (rec_init Bool)
          rec_waiters_alone_sched).mem.lock
          = __afl_thread_pointer_tid (owner_example_tp t) ∨
         (run (rec_step (2 ^ 64 - 1) owner_example_tp) (rec_init Bool)
          rec_waiters_alone_sched).mem.lock
          = __afl_thread_pointer_tid (owner_example_tp t) ||| AFL_HAVE_WAITERS)) :=
  ⟨by decide, owner_word_encoding (2 ^ 64 - 1) owner_example_tp (by decide) (by decide)
    owner_example_sched rec_waiters_alone_sched⟩
/-! ### The waiters bit and the futex queue -/

/-- C17, counterexample: thread 1 is suspended in `FUTEX_WAIT` and thread 0
has executed the exchange of `afl_mutex_unlock` but not yet its `FUTEX_WAKE`:
the word is 0, so the waiters bit is clear, while thread 1 is on the futex
queue. -/
theorem sleeper_with_waiters_bit_clear :
    (run mutex_kstep (mutex_kinit Nat) sleeper_sched).word = 0 ∧
    (run mutex_kstep (mutex_kinit Nat) sleeper_sched).word &&& AFL_HAVE_WAITERS = 0 ∧
    (run mutex_kstep (mutex_kinit Nat) sleeper_sched).queue = [1] ∧
    (run mutex_kstep (mutex_kinit Nat) sleeper_sched).th 1 = .in_lock .asleep ∧
    (run mutex_kstep (mutex_kinit Nat) sleeper_sched).th 0 = .in_unlock .wake := by
  decide

theorem kinv_move {τ : Type} [DecidableEq τ] (s : MutexK τ) (t : τ) (x : MutexThread)
    (w' : Nat) (h : MutexKInv s) (hold : s.th t ≠ .in_lock .asleep)
    (hx : x ≠ .in_lock .asleep)
    (hC : x = .in_lock .xchg ∨ x = .in_unlock .wake ∨ w' &&& AFL_HAVE_WAITERS ≠ 0 ∨
      ((w' &&& AFL_HAVE_WAITERS = 0 → s.word &&& AFL_HAVE_WAITERS = 0) ∧
        s.th t ≠ .in_unlock .wake ∧ s.th t ≠ .in_lock .xchg)) :
    MutexKInv ⟨w', Function.update s.th t x, s.queue⟩ := by
  obtain ⟨hq, hc⟩ := h
  refine ⟨fun a => ?_, fun hw hs => ?_⟩
  · by_cases ha : a = t
    · subst ha
      simp only [Function.update_same]
      exact ⟨fun hin => absurd ((hq a).1 hin) hold, fun he => absurd he hx⟩
    · simp only [Function.update_noteq ha]
      exact hq a
  · simp only at hw hs ⊢
    rcases hC with hC | hC | hC | ⟨hC1, hC2, hC3⟩
    · exact ⟨t, Or.inr (by simp [hC])⟩
    · exact ⟨t, Or.inl (by simp [hC])⟩
    · exact absurd hw hC
    · obtain ⟨a, ha⟩ := hs
      have hat : a ≠ t := by
        intro he
        subst he
        simp at ha
        exact hx ha
      rw [Function.update_noteq hat] at ha
      obtain ⟨b, hb⟩ := hc (hC1 hw) ⟨a, ha⟩
      have hbt : b ≠ t := by
        intro he
        subst he
        rcases hb with hb | hb
        · exact hC2 hb
        · exact hC3 hb
      exact ⟨b, by simpa [Function.update_noteq hbt] using hb⟩

theorem kinv_step {τ : Type} [DecidableEq τ] (s : MutexK τ) (a : τ × Nat) (h : MutexKInv s) :
    MutexKInv (mutex_kstep s a) := by
  obtain ⟨t, i⟩ := a
  cases hth : s.th t with
  | idle =>
    simp only [mutex_kstep, hth]
    exact kinv_move s t _ _ h (by simp [hth]) (by simp) (Or.inr (Or.inr (Or.inr
      ⟨fun hw => hw, by simp [hth], by simp [hth]⟩)))
  | locked =>
    simp only [mutex_kstep, hth]
    exact kinv_move s t _ _ h (by simp [hth]) (by simp) (Or.inr (Or.inr (Or.inr
      ⟨fun hw => hw, by simp [hth], by simp [hth]⟩)))
  | in_lock pc =>
    cases pc with
    | load =>
      simp only [mutex_kstep, hth]
      refine kinv_move s t _ _ h (by simp [hth]) ?_ (Or.inr (Or.inr (Or.inr
        ⟨?_, by simp [hth], by simp [hth]⟩))) <;>
        simp only [afl_mutex_lock_step] <;> split_ifs <;> simp
    | cas =>
      simp only [mutex_kstep, hth]
      refine kinv_move s t _ _ h (by simp [hth]) ?_ (Or.inr (Or.inr (Or.inr
        ⟨?_, by simp [hth], by simp [hth]⟩))) <;>
        simp only [afl_mutex_lock_step, atomic_compare_exchange] <;> split_ifs <;>
        simp_all [AFL_UNLOCKED]
    | set_waiters lock =>
      simp only [mutex_kstep, hth]
      refine kinv_move s t _ _ h (by simp [hth]) ?_ (Or.inr (Or.inr (Or.inr
        ⟨?_, by simp [hth], by simp [hth]⟩))) <;>
        simp only [afl_mutex_lock_step, atomic_compare_exchange] <;> split_ifs <;>
        simp_all [AFL_LOCKED, AFL_HAVE_WAITERS, locked_waiters_and_waiters]
    | futex =>
      simp only [mutex_kstep, hth]
      split_ifs with hw
      · obtain ⟨hq, _⟩ := h
        refine ⟨fun a => ?_, fun hclear _ => ?_⟩
        · by_cases ha : a = t
          · subst ha; simp
          · simp only [Function.update_noteq ha, List.mem_append, List.mem_singleton, ha,
              or_false]
            exact hq a
        · simp only [afl_mutex_lock_step, hw, if_true] at hclear
          exact absurd hclear (by decide)
      · refine kinv_move s t _ _ h (by simp [hth]) (by simp) (Or.inl rfl)
    | asleep =>
      simp only [mutex_kstep, hth]
      obtain ⟨hq, _⟩ := h
      refine ⟨fun a => ?_, fun _ _ => ⟨t, Or.inr (by simp)⟩⟩
      by_cases ha : a = t
      · subst ha; simp
      · simp only [Function.update_noteq ha, List.mem_filter, ha, decide_not, decide_False,
          Bool.not_false, and_true]
        exact hq a
    | xchg =>
      simp only [mutex_kstep, hth]
      refine kinv_move s t _ _ h (by simp [hth]) ?_ (Or.inr (Or.inr (Or.inl ?_))) <;>
        simp only [afl_mutex_lock_step, atomic_exchange] <;> split_ifs <;>
        simp [AFL_LOCKED, AFL_HAVE_WAITERS, locked_waiters_and_waiters]
  | in_unlock pc =>
    cases pc with
    | load =>
      simp only [mutex_kstep, hth]
      refine kinv_move s t _ _ h (by simp [hth]) ?_ (Or.inr (Or.inr (Or.inr
        ⟨?_, by simp [hth], by simp [hth]⟩))) <;>
        simp [afl_mutex_unlock_step]
    | xchg =>
      simp only [mutex_kstep, hth]
      by_cases hW : s.word &&& AFL_HAVE_WAITERS = 0
      · refine kinv_move s t _ _ h (by simp [hth]) ?_ (Or.inr (Or.inr (Or.inr
          ⟨?_, by simp [hth], by simp [hth]⟩))) <;>
          simp [afl_mutex_unlock_step, atomic_exchange, hW]
      · refine kinv_move s t _ _ h (by simp [hth]) ?_ (Or.inr (Or.inl ?_)) <;>
          simp [afl_mutex_unlock_step, atomic_exchange, hW]
    | wake =>
      simp only [mutex_kstep, hth]
      obtain ⟨hq, hc⟩ := h
      cases hget : s.queue[i % s.queue.length]? with
      | none =>
        have hnil : s.queue = [] := by
          by_contra hne
          have hpos : 0 < s.queue.length := List.length_pos.mpr hne
          have hlt : i % s.queue.length < s.queue.length := Nat.mod_lt _ hpos
          rw [List.getElem?_eq_getElem hlt] at hget
          cases hget
        simp only
        refine ⟨fun a => ?_, fun _ hs => ?_⟩
        · by_cases ha : a = t
          · subst ha
            simp only [Function.update_same]
            constructor
            · intro hin
              rw [hnil] at hin
              cases hin
            · intro he
              cases he
          · simp only [Function.update_noteq ha]
            exact hq a
        · obtain ⟨a, ha⟩ := hs
          have hat : a ≠ t := by
            intro he; subst he; simp at ha
          simp only [Function.update_noteq hat] at ha
          have := (hq a).2 ha
          rw [hnil] at this
          cases this
      | some w =>
        have hwq : w ∈ s.queue := List.getElem?_mem hget
        have hws : s.th w = .in_lock .asleep := (hq w).1 hwq
        have hwt : w ≠ t := by
          intro he; rw [he, hth] at hws; cases hws
        simp only
        refine ⟨fun a => ?_, fun _ _ => ⟨w, Or.inr (by simp)⟩⟩
        by_cases haw : a = w
        · subst haw; simp
        · by_cases hat : a = t
          · subst hat
            simp only [Function.update_noteq haw, Function.update_same, List.mem_filter]
            constructor
            · intro hin
              have := (hq a).1 hin.1
              rw [hth] at this
              cases this
            · intro he; cases he
          · simp only [Function.update_noteq haw, Function.update_noteq hat, List.mem_filter,
              haw, decide_not, decide_False, Bool.not_false, and_true]
            exact hq a

/-- C17 (amended): in every state that a schedule of `afl_mutex_lock` /
`afl_mutex_unlock` callers reaches from the mutex 0, with the kernel's futex
queue, the queue holds exactly the threads suspended in `FUTEX_WAIT`; and if
the waiters bit of the word is clear while a thread is suspended, then a
wake-up is under way: some thread has executed the exchange of
`afl_mutex_unlock` and is about to call `FUTEX_WAKE`, or some thread is about
to execute the exchange of line 342, which sets the bit again. -/
theorem waiters_bit_covers_sleepers {τ : Type} [DecidableEq τ] (sched : List (τ × Nat)) :
    (∀ t, t ∈ (run mutex_kstep (mutex_kinit τ) sched).queue ↔
      (run mutex_kstep (mutex_kinit τ) sched).th t = .in_lock .asleep) ∧
    ((run mutex_kstep (mutex_kinit τ) sched).word &&& AFL_HAVE_WAITERS = 0 →
      (∃ t, (run mutex_kstep (mutex_kinit τ) sched).th t = .in_lock .asleep) →
      ∃ t, (run mutex_kstep (mutex_kinit τ) sched).th t = .in_unlock .wake ∨
        (run mutex_kstep (mutex_kinit τ) sched).th t = .in_lock .xchg) :=
  run_invariant mutex_kstep MutexKInv kinv_step sched _
    ⟨fun t => by simp [mutex_kinit], fun _ hs => by
      obtain ⟨t, ht⟩ := hs
      simp [mutex_kinit] at ht⟩


end AFL
